import Mathlib

/-!
gethscan — scan engine of the bridge accounting indexer

A shallow embedding of `scanner/scanswap.go` and the properties of its
driver, dedup cache and transaction classifier.

Conventions of the embedding

* `uint64` values are naturals below `2^64`; every `uint64` operation of the
  source is written with an explicit reduction modulo `2^64`.
* A Go run-time panic (nil dereference, index out of range) and `log.Fatal`
  are the `none` result of an `Option`-valued function.
* Remote procedure calls are functions stored in the scanner record.
-/

set_option autoImplicit false

namespace Gethscan

/-! ## Machine arithmetic -/

/-- The modulus of `uint64` arithmetic. -/
def u64 : Nat := 2 ^ 64

/-- Addition of two `uint64` values. -/
def add64 (a b : Nat) : Nat := (a + b) % u64

/-- Subtraction of two `uint64` values (wraps around below zero). -/
def sub64 (a b : Nat) : Nat := (a + u64 - b % u64) % u64

/-- Multiplication of two `uint64` values. -/
def mul64 (a b : Nat) : Nat := (a * b) % u64

/-! ## Driver: `doScanRangeJob` and `scanRange` -/

/-- One `go scanner.scanRange(job, from, to, wg)` launched by `doScanRangeJob`. -/
structure RangeJob where
  job : Nat
  from_ : Nat
  to_ : Nat
  deriving DecidableEq, Repr

/-- The loop `for i := uint64(0); i < jobs; i++ { ... }` of `doScanRangeJob`,
started at counter `i`; `fuel` bounds the number of iterations still to run
(the caller passes `jobs`). The result lists the launched workers in launch
order. -/
def scanRangeJobs (start end_ step jobs : Nat) : Nat → Nat → List RangeJob
  | 0, _ => []
  | fuel + 1, i =>
    if i < jobs then
      let from_ := add64 start (mul64 i step)
      let to_ := if add64 i 1 = jobs then end_ else add64 start (mul64 (add64 i 1) step)
      { job := add64 i 1, from_ := from_, to_ := to_ } ::
        scanRangeJobs start end_ step jobs fuel (add64 i 1)
    else []

/-- Model of `doScanRangeJob(start, end)` for a scanner whose `jobCount` is
`jobCount`: `none` is one of the two `log.Fatal` exits, `some rs` is the list
of `scanRange` workers launched. -/
def doScanRangeJob (jobCount start end_ : Nat) : Option (List RangeJob) :=
  if jobCount = 0 then none
  else if start ≥ end_ then none
  else
    let jobs := jobCount
    let count := sub64 end_ start
    let step := count / jobs
    let jobs := if step = 0 then 1 else jobs
    let step := if step = 0 then count else step
    some (scanRangeJobs start end_ step jobs jobs 0)

/-- Heights passed to `scanBlock` by `scanRange(job, from, to)`: the loop
`for h := from; h < to; h++`. -/
def scanRange (from_ to_ : Nat) : List Nat := List.range' from_ (to_ - from_)

/-- Height `h` lies in the half-open sub-range `[from, to)` of a worker. -/
def RangeJob.covers (r : RangeJob) (h : Nat) : Bool := decide (r.from_ ≤ h ∧ h < r.to_)

/-- The sub-ranges in `rs` are laid end to end from `s` to `e`: the first one
begins at `s`, each next one begins where the previous one stopped, the last
one stops at `e`, and none is reversed. -/
def Contiguous : Nat → Nat → List RangeJob → Prop
  | s, e, [] => s = e
  | s, e, r :: rs => r.from_ = s ∧ r.from_ ≤ r.to_ ∧ Contiguous r.to_ e rs

/-! ## Dedup cache: `cachedSacnnedBlocks` -/

/-- Reduction of an integer to the range of Go's 64-bit `int`. -/
def wrapInt64 (x : Int) : Int :=
  (x + 9223372036854775808) % 18446744073709551616 - 9223372036854775808

/-- The ring of recently scanned block hashes (`type cachedSacnnedBlocks`). -/
structure cachedSacnnedBlocks where
  capacity : Int
  nextIndex : Int
  hashes : List String
  deriving DecidableEq, Repr

/-- The package variable `cachedBlocks`: capacity 100, next index 0 and
`make([]string, 100)`, one hundred empty strings. -/
def cachedBlocks : cachedSacnnedBlocks :=
  { capacity := 100, nextIndex := 0, hashes := List.replicate 100 "" }

/-- Model of `addBlock`: `none` when the slice index is out of range or the
`%` divides by zero (both are run-time panics in Go). -/
def cachedSacnnedBlocks.addBlock (cache : cachedSacnnedBlocks) (blockHash : String) :
    Option cachedSacnnedBlocks :=
  if 0 ≤ cache.nextIndex ∧ cache.nextIndex < cache.hashes.length then
    if cache.capacity = 0 then none
    else some
      { cache with
        hashes := cache.hashes.set cache.nextIndex.toNat blockHash
        nextIndex := Int.tmod (wrapInt64 (cache.nextIndex + 1)) cache.capacity }
  else none

/-- Model of `isScanned`: the linear scan `for _, b := range cache.hashes`. -/
def cachedSacnnedBlocks.isScanned (cache : cachedSacnnedBlocks) (blockHash : String) : Bool :=
  cache.hashes.any (fun b => b == blockHash)

/-- A sequence of `addBlock` calls, oldest first. -/
def cachedSacnnedBlocks.addBlocks (cache : cachedSacnnedBlocks) :
    List String → Option cachedSacnnedBlocks
  | [] => some cache
  | h :: hs =>
    match cache.addBlock h with
    | none => none
    | some cache1 => cache1.addBlocks hs

/-- The last `n` elements of a list of inserted hashes (all of them when the
list is shorter than `n`). -/
def lastInserted (n : Nat) (hs : List String) : List String := hs.drop (hs.length - n)

/-- State of the cache after the insertions `hist`, where `hist` starts with
the hundred empty strings of the initial slice: the slots before `nextIndex`
hold the newest entries, the slots from `nextIndex` on hold the oldest of the
last hundred. -/
def CacheHolds (cache : cachedSacnnedBlocks) (hist : List String) : Prop :=
  cache.capacity = 100 ∧
  ∃ newer older : List String,
    cache.hashes = newer ++ older ∧
    hist.drop (hist.length - 100) = older ++ newer ∧
    cache.nextIndex = newer.length ∧
    newer.length < 100 ∧
    newer.length + older.length = 100

/-! ## Bytes, addresses and strings -/

/-- One byte. -/
abbrev Byte := Fin 256

/-- The type `common.Address`: 20 bytes. -/
abbrev Address := List Byte

/-- The type `common.Hash`: 32 bytes. -/
abbrev Hash := List Byte

/-- The zero value `common.Address{}`. -/
def zeroAddress : Address := List.replicate 20 0

/-- The lower-case hexadecimal digit of a nibble. -/
def hexDigit (n : Nat) : Char :=
  if n < 10 then Char.ofNat (48 + n) else Char.ofNat (87 + n)

/-- Two hexadecimal digits per byte. -/
def hexEncode (bs : List Byte) : List Char :=
  bs.flatMap (fun b => [hexDigit (b.val / 16), hexDigit (b.val % 16)])

/-- Model of `Address.Hex()`: `0x` and the forty hexadecimal digits of the
address. Go capitalises some of the digits `a`-`f` (the EIP-55 checksum); the
digits are kept in lower case here, because every `Hex()` string of the source
is consumed by `strings.EqualFold` or `common.HexToAddress`, which ignore
case. -/
def Hex (a : Address) : String := String.mk ('0' :: 'x' :: hexEncode a)

/-- Model of `strings.EqualFold`: equality up to case. One argument of every
call in the source is a `Hex()` string, whose characters `0-9`, `a-f`, `x` have
no case variants outside ASCII, so folding ASCII letters decides the
comparison. -/
def EqualFold (s t : String) : Bool :=
  s.toList.map Char.toLower == t.toList.map Char.toLower

/-- Model of `common.BytesToAddress`: keeps the last 20 bytes of a longer
slice, left-pads a shorter one with zeros. -/
def BytesToAddress (b : List Byte) : Address :=
  let b := if b.length > 20 then b.drop (b.length - 20) else b
  List.replicate (20 - b.length) 0 ++ b

/-- Value of a hexadecimal digit, `none` for any other character. -/
def hexVal (c : Char) : Option Nat :=
  let n := c.toNat
  if 48 ≤ n ∧ n ≤ 57 then some (n - 48)
  else if 97 ≤ n ∧ n ≤ 102 then some (n - 87)
  else if 65 ≤ n ∧ n ≤ 70 then some (n - 55)
  else none

/-- Model of `hex.DecodeString` as used by `common.Hex2Bytes` (the error is
dropped): the bytes decoded before the first invalid digit. -/
def Hex2Bytes : List Char → List Byte
  | a :: b :: rest =>
    match hexVal a, hexVal b with
    | some x, some y => Fin.ofNat (x * 16 + y) :: Hex2Bytes rest
    | _, _ => []
  | _ => []

/-- Model of `common.FromHex`: drops a `0x`/`0X` prefix, pads an odd number of
digits with a leading `0`, and decodes. -/
def FromHex (s : String) : List Byte :=
  let cs := match s.toList with
    | '0' :: 'x' :: rest => rest
    | '0' :: 'X' :: rest => rest
    | cs => cs
  let cs := if cs.length % 2 = 1 then '0' :: cs else cs
  Hex2Bytes cs

/-- Model of `common.HexToAddress`. -/
def HexToAddress (s : String) : Address := BytesToAddress (FromHex s)

/-- The allocation limit of the Go runtime (`maxAlloc`, `2^48` bytes on 64-bit
Linux): `make` panics with `makeslice: len out of range` when the number of
bytes asked for exceeds it. Running out of memory below the limit is a fatal
error of the runtime, not a panic of the program, and is not modelled. -/
def maxAlloc : Nat := 2 ^ 48

/-- Model of `common.RightPadBytes(slice, l)`; `none` is the panic of
`make([]byte, l)` when `l` exceeds the allocation limit. -/
def RightPadBytes (slice : List Byte) (l : Int) : Option (List Byte) :=
  if l ≤ slice.length then some slice
  else if l.toNat ≤ maxAlloc then
    some (slice ++ List.replicate (l.toNat - slice.length) 0)
  else none

/-- Model of `GetData(data, start, size)` with `uint64` arguments; `none` is
a run-time panic: of the slice expression `data[start:end]` when
`start > end`, or of the allocation inside `RightPadBytes`. The length of a Go
slice fits a `uint64`, so `uint64(len(data))` is the length itself. -/
def GetData (data : List Byte) (start size : Nat) : Option (List Byte) :=
  let length := data.length
  let start := if start > length then length else start
  let end_ := add64 start size
  let end_ := if end_ > length then length else end_
  if start ≤ end_ then
    RightPadBytes ((data.drop start).take (end_ - start)) (wrapInt64 size)
  else none

/-! ## Selectors and log topics -/

/-- Selector of `transfer(address,uint256)`, `0xa9059cbb`. -/
def transferFuncHash : List Byte := [0xa9, 0x05, 0x9c, 0xbb]

/-- Selector of `transferFrom(address,address,uint256)`, `0x23b872dd`. -/
def transferFromFuncHash : List Byte := [0x23, 0xb8, 0x72, 0xdd]

/-- Selector of `Swapin(bytes32,address,uint256)`, `0xec126c77`. -/
def swapinFuncHash : List Byte := [0xec, 0x12, 0x6c, 0x77]

/-- Selector of `Swapout(uint256,address)`, `0x628d6cba`. -/
def addressSwapoutFuncHash : List Byte := [0x62, 0x8d, 0x6c, 0xba]

/-- Selector of `Swapout(uint256,string)`, `0xad54056d`. -/
def stringSwapoutFuncHash : List Byte := [0xad, 0x54, 0x05, 0x6d]

/-- Topic of the `Transfer` log. -/
def transferLogTopic : Hash := [
  0xdd, 0xf2, 0x52, 0xad, 0x1b, 0xe2, 0xc8, 0x9b,
  0x69, 0xc2, 0xb0, 0x68, 0xfc, 0x37, 0x8d, 0xaa,
  0x95, 0x2b, 0xa7, 0xf1, 0x63, 0xc4, 0xa1, 0x16,
  0x28, 0xf5, 0x5a, 0x4d, 0xf5, 0x23, 0xb3, 0xef]

/-- Topic of the `LogSwapin` log. -/
def swapinLogTopic : Hash := [
  0x05, 0xd0, 0x63, 0x4f, 0xe9, 0x81, 0xbe, 0x85,
  0xc2, 0x2e, 0x29, 0x42, 0xa8, 0x80, 0x82, 0x1b,
  0x70, 0x09, 0x5d, 0x84, 0xe1, 0x52, 0xc3, 0xea,
  0x3c, 0x17, 0xa4, 0xe4, 0x25, 0x0d, 0x9d, 0x61]

/-- Topic of the `LogSwapout` log with an `address` destination. -/
def addressSwapoutLogTopic : Hash := [
  0x6b, 0x61, 0x60, 0x89, 0xd0, 0x49, 0x50, 0xdc,
  0x06, 0xc4, 0x5c, 0x6d, 0xd7, 0x87, 0xd6, 0x57,
  0x98, 0x05, 0x43, 0xf8, 0x96, 0x51, 0xae, 0xc4,
  0x79, 0x24, 0x75, 0x2c, 0x7d, 0x16, 0xc8, 0x88]

/-- Topic of the `LogSwapout` log with a `string` destination. -/
def stringSwapoutLogTopic : Hash := [
  0x9c, 0x92, 0xad, 0x81, 0x7e, 0x54, 0x74, 0xd3,
  0x0a, 0x43, 0x78, 0xde, 0xfa, 0xce, 0x76, 0x51,
  0x50, 0x47, 0x93, 0x63, 0xa8, 0x97, 0xb0, 0x59,
  0x0f, 0xbb, 0x12, 0xae, 0x9d, 0x89, 0x39, 0x6b]

/-! ## Data model of the classifier -/

/-- The sentinel errors of package `tokens` that the classifier returns. -/
inductive VerifyError where
  | ErrTxWithWrongInput
  | ErrTxFuncHashMismatch
  | ErrTxWithWrongReceiver
  | ErrTxWithWrongContract
  | ErrDepositLogNotFound
  | ErrSwapoutLogNotFound
  | ErrTxNotFound
  deriving DecidableEq, Repr

/-- The type `SwapTxType`; `TypeNull` is the value `-1`. -/
inductive SwapTxType where
  | TypeDeposit
  | TypeMint
  | TypeBurn
  | TypeRedeemed
  | TypeNull
  deriving DecidableEq, Repr

/-- The type `SwapEvent`. A `*big.Int` field is `none` when the pointer is
nil. -/
structure SwapEvent where
  TxHash : Hash
  BlockTime : Int
  BlockNumber : Option Int
  Amount : Option Int
  User : Address
  deriving DecidableEq, Repr

/-- The fields of `params.TokenConfig` read by the scanner; `IsNativeToken` is
the result of the method `IsNativeToken()`. -/
structure TokenConfig where
  TokenAddress : String
  DepositAddress : String
  CallByContract : String
  IsSrcToken : Bool
  IsNativeToken : Bool
  deriving DecidableEq, Repr

/-- The fields of `types.Log` read by the scanner; `Data` is `none` for a nil
slice and `some []` for an empty one. -/
structure Log where
  Address : Address
  Topics : List Hash
  Data : Option (List Byte)
  Removed : Bool
  deriving DecidableEq, Repr

/-- The fields of `types.Receipt` read by the scanner. -/
structure Receipt where
  BlockNumber : Option Int
  Logs : List Log
  deriving DecidableEq, Repr

/-- The parts of `types.Transaction` read by the scanner; `To` is `none` for a
contract creation. -/
structure Transaction where
  Hash : Hash
  To : Option Address
  Value : Int
  Data : List Byte
  deriving DecidableEq, Repr

/-- The scanner as seen by the classifier: the flag `scanReceipt` and the
outcome of the calls that leave this file. `AsMessage` is the sender recovered
by `tx.AsMessage(types.NewEIP155Signer(scanner.chainId), nil)`, `none` on
error; `loopGetTxReceipt` is the receipt obtained after the retries, `none` on
error; `HeaderByNumber` is the `Time` of the header returned by the client,
`none` on error; `cachedDecimal` is the method of that name. -/
structure ethSwapScanner where
  scanReceipt : Bool
  AsMessage : Transaction → Option Address
  loopGetTxReceipt : Hash → Option Receipt
  HeaderByNumber : Option Int → Option Nat
  cachedDecimal : TokenConfig → Int

/-- Model of `getBlockTimestamp`: `0` on error, else `int64(header.Time)`. -/
def getBlockTimestamp (scanner : ethSwapScanner) (blockNumber : Option Int) : Int :=
  match scanner.HeaderByNumber blockNumber with
  | none => 0
  | some time => wrapInt64 time

/-! ## Classifier: the parsers

A parser receives the event record under construction and returns it (the
source passes a pointer) together with the `error`; `none` as the error is
`nil`. -/

/-- Model of `parseErc20SwapinTxInput`; the outer `none` is a panic inside
`GetData`. -/
def parseErc20SwapinTxInput (input : List Byte) (depositAddress : String)
    (swapData : SwapEvent) : Option (SwapEvent × Option VerifyError) :=
  if input.length < 4 then some (swapData, some .ErrTxWithWrongInput)
  else
    let funcHash := input.take 4
    if funcHash = transferFuncHash then
      match GetData input 4 32 with
      | none => none
      | some word =>
        let receiver := Hex (BytesToAddress word)
        if !EqualFold receiver depositAddress then some (swapData, some .ErrTxWithWrongReceiver)
        else some (swapData, none)
    else if funcHash = transferFromFuncHash then
      match GetData input 36 32 with
      | none => none
      | some word =>
        let receiver := Hex (BytesToAddress word)
        if !EqualFold receiver depositAddress then some (swapData, some .ErrTxWithWrongReceiver)
        else some (swapData, none)
    else some (swapData, some .ErrTxFuncHashMismatch)

/-- Model of `parseErc20SwapinTxLogs`: the loop over the receipt logs. The
indexings `Topics[0]` and `Topics[2]` are reached only after the length test,
so they cannot fail. -/
def parseErc20SwapinTxLogs (logs : List Log) (tokenCfg : TokenConfig)
    (swapData : SwapEvent) : SwapEvent × Option VerifyError :=
  match logs with
  | [] => (swapData, some .ErrDepositLogNotFound)
  | rlog :: rest =>
    if rlog.Removed then parseErc20SwapinTxLogs rest tokenCfg swapData
    else if !EqualFold (Hex rlog.Address) tokenCfg.TokenAddress then
      parseErc20SwapinTxLogs rest tokenCfg swapData
    else if rlog.Topics.length ≠ 3 ∨ rlog.Data = none then
      parseErc20SwapinTxLogs rest tokenCfg swapData
    else if rlog.Topics.getD 0 [] = transferLogTopic then
      let receiver := Hex (BytesToAddress (rlog.Topics.getD 2 []))
      if EqualFold receiver tokenCfg.DepositAddress then (swapData, none)
      else (swapData, some .ErrTxWithWrongReceiver)
    else parseErc20SwapinTxLogs rest tokenCfg swapData

/-- Model of `parseErc20RedeemTxInput`. -/
def parseErc20RedeemTxInput (input : List Byte) (depositAddress : String)
    (swapData : SwapEvent) : Option (SwapEvent × Option VerifyError) :=
  if input.length < 4 then some (swapData, some .ErrTxWithWrongInput)
  else
    let funcHash := input.take 4
    if funcHash = transferFuncHash then
      match GetData input 4 32 with
      | none => none
      | some word =>
        let receiver := Hex (BytesToAddress word)
        some ({ swapData with User := HexToAddress receiver }, none)
    else if funcHash = transferFromFuncHash then
      match GetData input 36 32 with
      | none => none
      | some word =>
        let receiver := Hex (BytesToAddress word)
        some ({ swapData with User := HexToAddress receiver }, none)
    else some (swapData, some .ErrTxFuncHashMismatch)

/-- Model of `parseErc20RedeemTxLogs`: every matching log overwrites `User`,
and the function ends with `ErrDepositLogNotFound`. -/
def parseErc20RedeemTxLogs (logs : List Log) (tokenCfg : TokenConfig)
    (swapData : SwapEvent) : SwapEvent × Option VerifyError :=
  match logs with
  | [] => (swapData, some .ErrDepositLogNotFound)
  | rlog :: rest =>
    if rlog.Removed then parseErc20RedeemTxLogs rest tokenCfg swapData
    else if !EqualFold (Hex rlog.Address) tokenCfg.TokenAddress then
      parseErc20RedeemTxLogs rest tokenCfg swapData
    else if rlog.Topics.length ≠ 3 ∨ rlog.Data = none then
      parseErc20RedeemTxLogs rest tokenCfg swapData
    else if rlog.Topics.getD 0 [] = transferLogTopic then
      let receiver := Hex (BytesToAddress (rlog.Topics.getD 2 []))
      parseErc20RedeemTxLogs rest tokenCfg { swapData with User := HexToAddress receiver }
    else parseErc20RedeemTxLogs rest tokenCfg swapData

/-- Model of `parseSwapoutTxInput`. -/
def parseSwapoutTxInput (input : List Byte) (swapData : SwapEvent) :
    SwapEvent × Option VerifyError :=
  if input.length < 4 then (swapData, some .ErrTxWithWrongInput)
  else
    let funcHash := input.take 4
    if funcHash = addressSwapoutFuncHash ∨ funcHash = stringSwapoutFuncHash then
      (swapData, none)
    else (swapData, some .ErrTxFuncHashMismatch)

/-- Model of `parseSwapoutTxLogs`. -/
def parseSwapoutTxLogs (logs : List Log) (tokenCfg : TokenConfig)
    (swapData : SwapEvent) : SwapEvent × Option VerifyError :=
  match logs with
  | [] => (swapData, some .ErrSwapoutLogNotFound)
  | rlog :: rest =>
    if rlog.Removed then parseSwapoutTxLogs rest tokenCfg swapData
    else if !EqualFold (Hex rlog.Address) tokenCfg.TokenAddress then
      parseSwapoutTxLogs rest tokenCfg swapData
    else if rlog.Topics.length ≠ 2 ∨ rlog.Data = none then
      parseSwapoutTxLogs rest tokenCfg swapData
    else if rlog.Topics.getD 0 [] = addressSwapoutLogTopic ∨
        rlog.Topics.getD 0 [] = stringSwapoutLogTopic then
      (swapData, none)
    else parseSwapoutTxLogs rest tokenCfg swapData

/-- Model of `parseMintTxInput`. -/
def parseMintTxInput (input : List Byte) (swapData : SwapEvent) :
    SwapEvent × Option VerifyError :=
  if input.length < 4 then (swapData, some .ErrTxWithWrongInput)
  else
    let funcHash := input.take 4
    if funcHash = swapinFuncHash then (swapData, none)
    else (swapData, some .ErrTxFuncHashMismatch)

/-- Model of `parseMintTxLogs`. -/
def parseMintTxLogs (logs : List Log) (tokenCfg : TokenConfig)
    (swapData : SwapEvent) : SwapEvent × Option VerifyError :=
  match logs with
  | [] => (swapData, some .ErrSwapoutLogNotFound)
  | rlog :: rest =>
    if rlog.Removed then parseMintTxLogs rest tokenCfg swapData
    else if !EqualFold (Hex rlog.Address) tokenCfg.TokenAddress then
      parseMintTxLogs rest tokenCfg swapData
    else if rlog.Topics.length ≠ 2 ∨ rlog.Data = none then
      parseMintTxLogs rest tokenCfg swapData
    else if rlog.Topics.getD 0 [] = swapinLogTopic then (swapData, none)
    else parseMintTxLogs rest tokenCfg swapData

/-! ## Classifier: the four verifiers and `verifyTransaction`

Each verifier first builds the event record from `receipt.BlockNumber`; with a
nil receipt that field access is a nil-pointer dereference, the result
`none`. -/

/-- Model of `verifyErc20SwapinTx` (ERC-20 deposit). -/
def verifyErc20SwapinTx (scanner : ethSwapScanner) (tx : Transaction)
    (receipt : Option Receipt) (tokenCfg : TokenConfig) :
    Option (SwapEvent × Option VerifyError) :=
  match receipt with
  | none => none
  | some r =>
    let swapData : SwapEvent :=
      { TxHash := tx.Hash
        BlockTime := getBlockTimestamp scanner r.BlockNumber
        BlockNumber := r.BlockNumber
        Amount := none
        User := zeroAddress }
    if receipt = none then parseErc20SwapinTxInput tx.Data tokenCfg.DepositAddress swapData
    else some (parseErc20SwapinTxLogs r.Logs tokenCfg swapData)

/-- Model of `verifyErc20RedeemTx` (ERC-20 redeem). -/
def verifyErc20RedeemTx (scanner : ethSwapScanner) (tx : Transaction)
    (receipt : Option Receipt) (tokenCfg : TokenConfig) :
    Option (SwapEvent × Option VerifyError) :=
  match receipt with
  | none => none
  | some r =>
    let swapData : SwapEvent :=
      { TxHash := tx.Hash
        BlockTime := getBlockTimestamp scanner r.BlockNumber
        BlockNumber := r.BlockNumber
        Amount := none
        User := zeroAddress }
    if receipt = none then parseErc20RedeemTxInput tx.Data tokenCfg.DepositAddress swapData
    else some (parseErc20RedeemTxLogs r.Logs tokenCfg swapData)

/-- Model of `verifySwapoutTx` (burn). -/
def verifySwapoutTx (scanner : ethSwapScanner) (tx : Transaction)
    (receipt : Option Receipt) (tokenCfg : TokenConfig) :
    Option (SwapEvent × Option VerifyError) :=
  match receipt with
  | none => none
  | some r =>
    let swapData : SwapEvent :=
      { TxHash := tx.Hash
        BlockTime := getBlockTimestamp scanner r.BlockNumber
        BlockNumber := r.BlockNumber
        Amount := none
        User := zeroAddress }
    if receipt = none then some (parseSwapoutTxInput tx.Data swapData)
    else some (parseSwapoutTxLogs r.Logs tokenCfg swapData)

/-- Model of `verifyMintTx` (mint). -/
def verifyMintTx (scanner : ethSwapScanner) (tx : Transaction)
    (receipt : Option Receipt) (tokenCfg : TokenConfig) :
    Option (SwapEvent × Option VerifyError) :=
  match receipt with
  | none => none
  | some r =>
    let swapData : SwapEvent :=
      { TxHash := tx.Hash
        BlockTime := getBlockTimestamp scanner r.BlockNumber
        BlockNumber := r.BlockNumber
        Amount := none
        User := zeroAddress }
    if receipt = none then some (parseMintTxInput tx.Data swapData)
    else some (parseMintTxLogs r.Logs tokenCfg swapData)

/-- The `switch` statement of `verifyTransaction` and the `return` that
follows it, entered with the sender `txFrom`, the contract `cmpTxTo` to compare
`tx.To` with, and the receipt in hand. `none` is a nil-pointer dereference of
`receipt`. -/
def verifySwitch (scanner : ethSwapScanner) (tx : Transaction) (to_ txFrom : Address)
    (cmpTxTo : String) (receipt : Option Receipt) (tokenCfg : TokenConfig) :
    Option (SwapTxType × Option SwapEvent × Option VerifyError) :=
  let txTo := Hex to_
  let depositAddress := tokenCfg.DepositAddress
  if tokenCfg.IsSrcToken then
    -- Src chain, Deposit or Redeemed
    if tokenCfg.IsNativeToken then
      if EqualFold txTo depositAddress then
        -- deposit native
        match receipt with
        | none => none
        | some r =>
          some (.TypeDeposit,
            some { TxHash := tx.Hash
                   BlockTime := getBlockTimestamp scanner r.BlockNumber
                   BlockNumber := r.BlockNumber
                   Amount := some tx.Value
                   User := txFrom }, none)
      else if EqualFold (Hex txFrom) depositAddress then
        -- redeemed native
        match receipt with
        | none => none
        | some r =>
          some (.TypeRedeemed,
            some { TxHash := tx.Hash
                   BlockTime := getBlockTimestamp scanner r.BlockNumber
                   BlockNumber := r.BlockNumber
                   Amount := some tx.Value
                   User := to_ }, none)
      else some (.TypeNull, none, none)
    else if EqualFold txTo cmpTxTo then
      if EqualFold (Hex txFrom) depositAddress == false then
        match verifyErc20SwapinTx scanner tx receipt tokenCfg with
        | none => none
        | some (swapData, verifyErr) =>
          if verifyErr = some .ErrTxWithWrongReceiver then some (.TypeNull, none, verifyErr)
          -- deposit erc20
          else some (.TypeDeposit, some swapData, verifyErr)
      else
        match verifyErc20RedeemTx scanner tx receipt tokenCfg with
        | none => none
        -- erc20 redeemed
        | some (swapData, verifyErr) => some (.TypeRedeemed, some swapData, verifyErr)
    else some (.TypeNull, none, none)
  else
    -- Dst chain, Mint or Burn
    if EqualFold txTo cmpTxTo then
      if EqualFold (Hex txFrom) depositAddress then
        -- Mint
        match verifyMintTx scanner tx receipt tokenCfg with
        | none => none
        | some (swapData, verifyErr) => some (.TypeMint, some swapData, verifyErr)
      else
        -- Burn
        match verifySwapoutTx scanner tx receipt tokenCfg with
        | none => none
        | some (swapData, verifyErr) =>
          if verifyErr = some .ErrTxWithWrongReceiver then some (.TypeNull, none, verifyErr)
          else some (.TypeBurn, some swapData, verifyErr)
    else some (.TypeNull, none, none)

/-- Model of `verifyTransaction(tx, receipt, tokenCfg)`. The result `none` is a
run-time panic: `tx.To().Hex()` on a nil `To`, or `receipt.BlockNumber` on a
nil receipt. -/
def verifyTransaction (scanner : ethSwapScanner) (tx : Transaction)
    (receipt : Option Receipt) (tokenCfg : TokenConfig) :
    Option (SwapTxType × Option SwapEvent × Option VerifyError) :=
  match tx.To with
  | none => none
  | some to_ =>
    match scanner.AsMessage tx with
    | none => some (.TypeNull, none, none)
    | some txFrom =>
      if tokenCfg.CallByContract ≠ "" then
        match receipt with
        | none =>
          match scanner.loopGetTxReceipt tx.Hash with
          | none => some (.TypeNull, none, none)
          | some r =>
            verifySwitch scanner tx to_ txFrom tokenCfg.CallByContract (some r) tokenCfg
        | some r =>
          verifySwitch scanner tx to_ txFrom tokenCfg.CallByContract (some r) tokenCfg
      else verifySwitch scanner tx to_ txFrom tokenCfg.TokenAddress receipt tokenCfg

/-! ## Sink: `scanTransaction` -/

/-- The value `convertToMgoSwapEvent(swapEvent, scanner.cachedDecimal(tokenCfg))`
handed to the store, kept as the two arguments of the conversion, which is
defined outside this file. -/
structure MgoSwapEvent where
  swapEvent : Option SwapEvent
  decimal : Int
  deriving DecidableEq, Repr

/-- One call of the persistence interface `dbAPI`. -/
inductive DbCall where
  | AddDeposit (tokenCfg : TokenConfig) (data : MgoSwapEvent)
  | AddMint (tokenCfg : TokenConfig) (data : MgoSwapEvent)
  | AddBurn (tokenCfg : TokenConfig) (data : MgoSwapEvent)
  | AddRedeemed (tokenCfg : TokenConfig) (data : MgoSwapEvent)
  deriving DecidableEq, Repr

/-- The `switch swapTxType` of `scanTransaction`: the persistence calls made
for one classification. -/
def syncSwapEvent (swapTxType : SwapTxType) (tokenCfg : TokenConfig)
    (mgoSwapEvent : MgoSwapEvent) : List DbCall :=
  match swapTxType with
  | .TypeDeposit => [.AddDeposit tokenCfg mgoSwapEvent]
  | .TypeMint => [.AddMint tokenCfg mgoSwapEvent]
  | .TypeBurn => [.AddBurn tokenCfg mgoSwapEvent]
  | .TypeRedeemed => [.AddRedeemed tokenCfg mgoSwapEvent]
  | .TypeNull => []

/-- One iteration of the loop `for _, tokenCfg := range ...Tokens` of
`scanTransaction`: the persistence calls made for the pair `(tx, tokenCfg)`,
`none` when `verifyTransaction` panics. -/
def scanToken (scanner : ethSwapScanner) (tx : Transaction) (receipt : Option Receipt)
    (tokenCfg : TokenConfig) : Option (List DbCall) :=
  match verifyTransaction scanner tx receipt tokenCfg with
  | none => none
  | some (swapTxType, swapEvent, _) =>
    let mgoSwapEvent : MgoSwapEvent :=
      { swapEvent := swapEvent, decimal := scanner.cachedDecimal tokenCfg }
    some (syncSwapEvent swapTxType tokenCfg mgoSwapEvent)

/-- The loop over the configured tokens: the persistence calls in the order
they are made, `none` when an iteration panics. -/
def scanTokens (scanner : ethSwapScanner) (tx : Transaction) (receipt : Option Receipt) :
    List TokenConfig → Option (List DbCall)
  | [] => some []
  | tokenCfg :: rest =>
    match scanToken scanner tx receipt tokenCfg with
    | none => none
    | some calls =>
      match scanTokens scanner tx receipt rest with
      | none => none
      | some more => some (calls ++ more)

/-- Model of `scanTransaction(tx)` with `tokens` the configured token list
`params.GetScanConfig().Tokens`: the persistence calls made, `none` when the
function panics. -/
def scanTransaction (scanner : ethSwapScanner) (tokens : List TokenConfig)
    (tx : Transaction) : Option (List DbCall) :=
  match tx.To with
  | none => some []
  | some _ =>
    if scanner.scanReceipt then
      match scanner.loopGetTxReceipt tx.Hash with
      | none => some []
      | some r => scanTokens scanner tx (some r) tokens
    else scanTokens scanner tx none tokens

/-! ## Notions of the specification and its scenarios -/

/-- The contract `tx.To` is compared with: `CallByContract` when set, else
`TokenAddress`. -/
def effectiveContract (tokenCfg : TokenConfig) : String :=
  if tokenCfg.CallByContract ≠ "" then tokenCfg.CallByContract else tokenCfg.TokenAddress

/-- The receipt `verifyTransaction` works with: the one supplied, or, when
`CallByContract` is set and none was supplied, the one it fetches. -/
def receiptInHand (scanner : ethSwapScanner) (tx : Transaction) (receipt : Option Receipt)
    (tokenCfg : TokenConfig) : Option Receipt :=
  if tokenCfg.CallByContract ≠ "" then
    match receipt with
    | none => scanner.loopGetTxReceipt tx.Hash
    | some r => some r
  else receipt

/-- The receipt `scanTransaction` passes to `verifyTransaction`. -/
def scannedReceipt (scanner : ethSwapScanner) (tx : Transaction) : Option Receipt :=
  if scanner.scanReceipt then scanner.loopGetTxReceipt tx.Hash else none

/-- The bridge address `0xDEAD…01` of the scenarios. -/
def addrDeposit : Address :=
  [0xde, 0xad, 0, 0, 0, 0, 0, 0, 0, 0, 0, 0, 0, 0, 0, 0, 0, 0, 0, 0x01]

/-- The user address `0xCAFE…02` of the scenarios. -/
def addrUser : Address :=
  [0xca, 0xfe, 0, 0, 0, 0, 0, 0, 0, 0, 0, 0, 0, 0, 0, 0, 0, 0, 0, 0x02]

/-- A token contract address. -/
def addrToken : Address := List.replicate 20 0x11

/-- A scanner whose signer recovery yields `sender` for every transaction,
whose receipt lookups fail and whose headers carry the time 1600000000. -/
def scannerOf (sender : Address) (scanReceipt : Bool) : ethSwapScanner :=
  { scanReceipt := scanReceipt
    AsMessage := fun _ => some sender
    loopGetTxReceipt := fun _ => none
    HeaderByNumber := fun _ => some 1600000000
    cachedDecimal := fun _ => 18 }

/-- Source-chain native token of scenarios S1 and S2. -/
def nativeToken : TokenConfig :=
  { TokenAddress := ""
    DepositAddress := "0xDEAD000000000000000000000000000000000001"
    CallByContract := ""
    IsSrcToken := true
    IsNativeToken := true }

/-- Source-chain ERC-20 token of scenarios S3 and S4. -/
def erc20Token : TokenConfig :=
  { TokenAddress := "0x1111111111111111111111111111111111111111"
    DepositAddress := "0xDEAD000000000000000000000000000000000001"
    CallByContract := ""
    IsSrcToken := true
    IsNativeToken := false }

/-- Destination-chain token of scenarios S5 and S6. -/
def dstToken : TokenConfig :=
  { TokenAddress := "0x1111111111111111111111111111111111111111"
    DepositAddress := "0xDEAD000000000000000000000000000000000001"
    CallByContract := ""
    IsSrcToken := false
    IsNativeToken := false }

/-- The transaction of scenario S1: one ether sent to the bridge address. -/
def nativeDepositTx : Transaction :=
  { Hash := List.replicate 32 0x07
    To := some addrDeposit
    Value := 1000000000000000000
    Data := [] }

/-- The transaction of scenario S3: `transfer(0xDEAD…01, 100)` sent to the
token contract. -/
def erc20DepositTx : Transaction :=
  { Hash := List.replicate 32 0x08
    To := some addrToken
    Value := 0
    Data := transferFuncHash ++ List.replicate 12 0 ++ addrDeposit ++
      List.replicate 31 0 ++ [100] }

/-- A receipt in block 5 with the given logs. -/
def receiptOf (logs : List Log) : Receipt := { BlockNumber := some 5, Logs := logs }

/-- A `Transfer` log of the token contract whose receiver topic is
`receiver`, with the given data. -/
def transferLog (receiver : Address) (data : Option (List Byte)) : Log :=
  { Address := addrToken
    Topics := [transferLogTopic, List.replicate 12 0 ++ addrUser,
      List.replicate 12 0 ++ receiver]
    Data := data
    Removed := false }

/-- A log that `parseErc20SwapinTxLogs` looks at: not removed, emitted by
`TokenAddress`, with exactly 3 topics, a non-nil `Data`, and the `Transfer`
topic first. -/
def isTransferLogOf (tokenCfg : TokenConfig) (rlog : Log) : Bool :=
  !rlog.Removed && EqualFold (Hex rlog.Address) tokenCfg.TokenAddress &&
    decide (rlog.Topics.length = 3) && rlog.Data.isSome &&
    decide (rlog.Topics.getD 0 [] = transferLogTopic)

/-- The 32-byte word of the call-data at byte offset `off`: the bytes
`[off, off + 32)` that exist, zero-padded on the right. -/
def wordAt (input : List Byte) (off : Nat) : List Byte :=
  let w := (input.drop off).take 32
  w ++ List.replicate (32 - w.length) 0

/-- An event record with every field at its zero value. -/
def zeroEvent : SwapEvent :=
  { TxHash := [], BlockTime := 0, BlockNumber := none, Amount := none, User := zeroAddress }

/-- The transaction of scenario S5: a `Swapin` call sent to the token
contract. -/
def mintTx : Transaction :=
  { Hash := List.replicate 32 0x09
    To := some addrToken
    Value := 0
    Data := swapinFuncHash }

/-- The `LogSwapin` log of scenario S5, emitted by the token contract. -/
def swapinLog : Log :=
  { Address := addrToken
    Topics := [swapinLogTopic, List.replicate 32 0x0a]
    Data := some [1]
    Removed := false }

/-- A log that `parseMintTxLogs` accepts: not removed, emitted by
`TokenAddress`, with exactly 2 topics, a non-nil `Data`, and the `LogSwapin`
topic first. -/
def isSwapinLogOf (tokenCfg : TokenConfig) (rlog : Log) : Bool :=
  !rlog.Removed && EqualFold (Hex rlog.Address) tokenCfg.TokenAddress &&
    decide (rlog.Topics.length = 2) && rlog.Data.isSome &&
    decide (rlog.Topics.getD 0 [] = swapinLogTopic)

/-- The `LogSwapin` log of the token contract with the given data. -/
def swapinLogWith (data : Option (List Byte)) : Log :=
  { Address := addrToken
    Topics := [swapinLogTopic, List.replicate 32 0x0a]
    Data := data
    Removed := false }

/-! ## Driver: `run` and `scanLoop` -/

/-- The conversion `uint64(x)` of an `int64`. -/
def toUint64 (x : Int) : Nat := (x % 18446744073709551616).toNat

/-- The window end `wend` of `run`: `endHeight`, or the latest block number
when `endHeight` is 0. -/
def windowEnd (endHeight latest : Nat) : Nat := if endHeight = 0 then latest else endHeight

/-- The arguments `(start, wend)` with which `run` calls `doScanRangeJob`,
`none` when it does not call it. The negation `-startHeightArgument` is an
`int64` operation. -/
def runRange (startHeightArgument : Int) (wend : Nat) : Option (Nat × Nat) :=
  if startHeightArgument ≠ 0 then
    let start :=
      if startHeightArgument > 0 then toUint64 startHeightArgument
      else if startHeightArgument < 0 then
        sub64 wend (toUint64 (wrapInt64 (-startHeightArgument)))
      else 0
    some (start, wend)
  else none

/-- What `run` sets up: the number of timers made, the range workers launched
and the height from which the tail loop starts, if it does. -/
structure RunResult where
  timers : Nat
  rangeJobs : List RangeJob
  scanLoopFrom : Option Nat
  deriving DecidableEq, Repr

/-- Model of `run` for a scanner with the given fields, `latest` being the
answer of `loopGetLatestBlockNumber`; `none` is the panic of
`make([]*time.Timer, scanner.jobCount+1)` when the 8-byte pointers asked for
exceed the allocation limit, or a `log.Fatal` exit of `doScanRangeJob`. -/
def run (startHeightArgument : Int) (endHeight jobCount latest : Nat) : Option RunResult :=
  let timers := add64 jobCount 1
  if 8 * timers > maxAlloc then none
  else
    let wend := windowEnd endHeight latest
    let scanLoopFrom := if endHeight = 0 then some wend else none
    match runRange startHeightArgument wend with
    | none => some { timers := timers, rangeJobs := [], scanLoopFrom := scanLoopFrom }
    | some (start, end_) =>
      match doScanRangeJob jobCount start end_ with
      | none => none
      | some jobs =>
        some { timers := timers, rangeJobs := jobs, scanLoopFrom := scanLoopFrom }

/-- The loop `for h := from; h <= latest; h++` of `scanLoop`, started at `h`:
the heights passed to `scanBlock(0, h, true)`. The result is `none` when the
loop has not ended after `fuel` tests of its condition. -/
def scanLoopHeights (latest : Nat) : Nat → Nat → Option (List Nat)
  | 0, _ => none
  | fuel + 1, h =>
    if h ≤ latest then
      match scanLoopHeights latest fuel (add64 h 1) with
      | none => none
      | some hs => some (h :: hs)
    else some []

/-- One pass of the `for` loop of `scanLoop` with `latest` the answer of
`loopGetLatestBlockNumber`: the heights scanned and the new value of `from`;
`none` when the inner loop has not ended within `fuel`. -/
def scanLoopPass (stable fuel from_ latest : Nat) : Option (List Nat × Nat) :=
  match scanLoopHeights latest fuel from_ with
  | none => none
  | some hs =>
    some (hs, if add64 from_ stable < latest then sub64 latest stable else from_)

/-! ## Block scan: `scanBlock` -/

/-- The parts of `types.Block` read by the scanner. -/
structure Block where
  Hash : Hash
  Transactions : List Transaction
  deriving DecidableEq, Repr

/-- What `scanBlock` sees of the chain and of the clock: `loopGetBlock` is the
block obtained after the retries, `none` on error; `timers` is
`len(scanner.processBlockTimers)`; `timerFired job height i` tells whether the
receive `<-scanner.processBlockTimers[job].C` succeeds when it is polled
before transaction `i` of the block at `height`. -/
structure ChainView where
  loopGetBlock : Nat → Option Block
  timers : Nat
  timerFired : Nat → Nat → Nat → Bool

/-- The loop `SCANTXS` of `scanBlock` from transaction index `i` on: the
persistence calls made and the number of transactions passed to
`scanTransaction`; the loop is left at the first index where the timer has
fired. `none` is a panic of `scanTransaction`. -/
def scanTxs (scanner : ethSwapScanner) (tokens : List TokenConfig) (fired : Nat → Bool) :
    Nat → List Transaction → Option (List DbCall × Nat)
  | _, [] => some ([], 0)
  | i, tx :: rest =>
    if fired i then some ([], 0)
    else
      match scanTransaction scanner tokens tx with
      | none => none
      | some calls =>
        match scanTxs scanner tokens fired (i + 1) rest with
        | none => none
        | some (more, n) => some (calls ++ more, n + 1)

/-- Outcome of one `scanBlock`: the dedup cache afterwards, the persistence
calls made, and the number of transactions passed to `scanTransaction`. -/
structure ScanBlockResult where
  cache : cachedSacnnedBlocks
  calls : List DbCall
  scanned : Nat
  deriving DecidableEq, Repr

/-- Model of `scanBlock(job, height, cache)` run on the dedup cache
`cachedBlocks`; `none` is a panic (timer index out of range, a panic of
`scanTransaction` or of `addBlock`). -/
def scanBlock (scanner : ethSwapScanner) (tokens : List TokenConfig) (view : ChainView)
    (cachedBlocks : cachedSacnnedBlocks) (job height : Nat) (cache : Bool) :
    Option ScanBlockResult :=
  match view.loopGetBlock height with
  | none => some { cache := cachedBlocks, calls := [], scanned := 0 }
  | some block =>
    let blockHash := Hex block.Hash
    if cache && cachedBlocks.isScanned blockHash then
      some { cache := cachedBlocks, calls := [], scanned := 0 }
    else if job ≥ view.timers then none
    else
      match scanTxs scanner tokens (view.timerFired job height) 0 block.Transactions with
      | none => none
      | some (calls, scanned) =>
        if cache then
          match cachedBlocks.addBlock blockHash with
          | none => none
          | some cachedBlocks1 =>
            some { cache := cachedBlocks1, calls := calls, scanned := scanned }
        else some { cache := cachedBlocks, calls := calls, scanned := scanned }

/-- A contract-creation transaction (nil `To`). -/
def creationTx : Transaction :=
  { Hash := List.replicate 32 0x0b, To := none, Value := 0, Data := [] }

/-- A chain whose every block has the hash `0x0c…0c` and the given
transactions, seen with two timers of which the one polled fires at once when
`fired` is set. -/
def viewOf (txs : List Transaction) (fired : Bool) : ChainView :=
  { loopGetBlock := fun _ => some { Hash := List.replicate 32 0x0c, Transactions := txs }
    timers := 2
    timerFired := fun _ _ _ => fired }

/-- The state predicate of the dedup cache: capacity 100, as many slots as the
capacity, and the next index inside the slice. -/
def CacheInv (cache : cachedSacnnedBlocks) : Prop :=
  cache.capacity = 100 ∧ (cache.hashes.length : Int) = cache.capacity ∧
    0 ≤ cache.nextIndex ∧ cache.nextIndex < cache.capacity

/-- A chain of empty blocks seen with `timers` timers, none of which fires. -/
def viewWith (timers : Nat) : ChainView :=
  { loopGetBlock := fun _ => some { Hash := List.replicate 32 0x0c, Transactions := [] }
    timers := timers
    timerFired := fun _ _ _ => false }

/-- What the specification asks of the persistence calls made for one token
whose classification is `res`: exactly one call, `AddDeposit`, `AddMint`,
`AddBurn` or `AddRedeemed` as the type says, carrying the token and the
converted event, and no call at all for `Null`. -/
def ExpectedCalls (scanner : ethSwapScanner) (tokenCfg : TokenConfig)
    (res : SwapTxType × Option SwapEvent × Option VerifyError) (calls : List DbCall) : Prop :=
  (res.1 = .TypeDeposit →
    calls = [.AddDeposit tokenCfg ⟨res.2.1, scanner.cachedDecimal tokenCfg⟩]) ∧
  (res.1 = .TypeMint →
    calls = [.AddMint tokenCfg ⟨res.2.1, scanner.cachedDecimal tokenCfg⟩]) ∧
  (res.1 = .TypeBurn →
    calls = [.AddBurn tokenCfg ⟨res.2.1, scanner.cachedDecimal tokenCfg⟩]) ∧
  (res.1 = .TypeRedeemed →
    calls = [.AddRedeemed tokenCfg ⟨res.2.1, scanner.cachedDecimal tokenCfg⟩]) ∧
  (res.1 = .TypeNull → calls = [])

/-- A scanner in receipt mode whose signer recovery yields `sender` and whose
receipt lookups all return `receipt`. -/
def scannerWith (sender : Address) (receipt : Receipt) : ethSwapScanner :=
  { scanReceipt := true
    AsMessage := fun _ => some sender
    loopGetTxReceipt := fun _ => some receipt
    HeaderByNumber := fun _ => some 1600000000
    cachedDecimal := fun _ => 18 }

/-! ## Properties of the driver -/

theorem add64_of_lt {a b : Nat} (h : a + b < u64) : add64 a b = a + b :=
  Nat.mod_eq_of_lt h

theorem mul64_of_lt {a b : Nat} (h : a * b < u64) : mul64 a b = a * b :=
  Nat.mod_eq_of_lt h

theorem sub64_of_le {a b : Nat} (hab : b ≤ a) (ha : a < u64) : sub64 a b = a - b := by
  unfold sub64
  have hb : b % u64 = b := Nat.mod_eq_of_lt (by omega)
  rw [hb]
  have h1 : a + u64 - b = (a - b) + u64 := by omega
  rw [h1, Nat.add_mod_right]
  exact Nat.mod_eq_of_lt (by omega)

/-- The workers launched from counter `i` on tile the interval from the
`i`-th boundary to `end`. -/
theorem scanRangeJobs_contiguous (start end_ step jobs : Nat)
    (hstep : 1 ≤ step) (hle : jobs * step ≤ end_ - start) (hse : start < end_)
    (he : end_ < u64) :
    ∀ fuel i, i + fuel = jobs →
      Contiguous (if i = jobs then end_ else start + i * step) end_
        (scanRangeJobs start end_ step jobs fuel i) := by
  intro fuel
  induction fuel with
  | zero =>
    intro i hi
    have : i = jobs := by omega
    simp [scanRangeJobs, Contiguous, this]
  | succ fuel ih =>
    intro i hi
    have hlt : i < jobs := by omega
    have hmul : (i + 1) * step ≤ jobs * step := Nat.mul_le_mul_right step (by omega)
    have hsucc : (i + 1) * step = i * step + step := Nat.succ_mul i step
    have hjs : jobs ≤ jobs * step := Nat.le_mul_of_pos_right jobs hstep
    have h1 : add64 i 1 = i + 1 := add64_of_lt (by omega)
    have h2 : mul64 i step = i * step := mul64_of_lt (by omega)
    have h3 : mul64 (i + 1) step = (i + 1) * step := mul64_of_lt (by omega)
    have h4 : add64 start (i * step) = start + i * step := add64_of_lt (by omega)
    have h5 : add64 start ((i + 1) * step) = start + (i + 1) * step := add64_of_lt (by omega)
    have hne : i ≠ jobs := by omega
    have ih' := ih (i + 1) (by omega)
    simp only [scanRangeJobs, hlt, if_true, h1, h2, h3, h4, h5, Contiguous, hne, if_false]
    refine ⟨trivial, ?_, ih'⟩
    split <;> omega

/-- A contiguous list of sub-ranges runs upwards. -/
theorem Contiguous.le : ∀ (rs : List RangeJob) (s e : Nat), Contiguous s e rs → s ≤ e
  | [], s, e, h => by simp [Contiguous] at h; omega
  | r :: rs, s, e, h => by
    obtain ⟨h1, h2, h3⟩ := h
    have := Contiguous.le rs r.to_ e h3
    omega

/-- In a contiguous list every height of `[s, e)` is covered by exactly one
sub-range and every other height by none. -/
theorem Contiguous.countP_covers : ∀ (rs : List RangeJob) (s e : Nat), Contiguous s e rs →
    ∀ h, rs.countP (fun r => r.covers h) = if s ≤ h ∧ h < e then 1 else 0
  | [], s, e, hc, h => by
    simp [Contiguous] at hc
    subst hc
    have : ¬ (s ≤ h ∧ h < s) := by omega
    simp [this]
  | r :: rs, s, e, hc, h => by
    obtain ⟨h1, h2, h3⟩ := hc
    have hle := Contiguous.le rs r.to_ e h3
    have ih := Contiguous.countP_covers rs r.to_ e h3 h
    rw [List.countP_cons, ih]
    simp only [RangeJob.covers]
    by_cases hA : r.to_ ≤ h ∧ h < e
    · have hB : ¬ (r.from_ ≤ h ∧ h < r.to_) := by omega
      have hC : s ≤ h ∧ h < e := by omega
      simp [hA, hB, hC]
    · by_cases hB : r.from_ ≤ h ∧ h < r.to_
      · have hC : s ≤ h ∧ h < e := by omega
        simp [hA, hB, hC]
      · have hC : ¬ (s ≤ h ∧ h < e) := by omega
        simp [hA, hB, hC]

/-- Every sub-range of a contiguous list lies inside `[s, e]`. -/
theorem Contiguous.bounds : ∀ (rs : List RangeJob) (s e : Nat), Contiguous s e rs →
    ∀ r ∈ rs, s ≤ r.from_ ∧ r.to_ ≤ e
  | [], _, _, _, r, hr => by simp at hr
  | r0 :: rs, s, e, hc, r, hr => by
    obtain ⟨h1, h2, h3⟩ := hc
    have hle := Contiguous.le rs r0.to_ e h3
    rcases List.mem_cons.mp hr with h | h
    · subst h; omega
    · have := Contiguous.bounds rs r0.to_ e h3 r h
      omega

/-- In a contiguous list an earlier sub-range stops no later than a later one
begins: the sub-ranges are pairwise disjoint. -/
theorem Contiguous.pairwise : ∀ (rs : List RangeJob) (s e : Nat), Contiguous s e rs →
    rs.Pairwise (fun a b => a.to_ ≤ b.from_)
  | [], _, _, _ => List.Pairwise.nil
  | r0 :: rs, s, e, hc => by
    obtain ⟨h1, h2, h3⟩ := hc
    refine List.Pairwise.cons ?_ (Contiguous.pairwise rs r0.to_ e h3)
    intro r hr
    exact (Contiguous.bounds rs r0.to_ e h3 r hr).1

/-- The heights visited by the workers of a contiguous list, job after job,
are `s, s+1, ..., e-1`. -/
theorem Contiguous.heights : ∀ (rs : List RangeJob) (s e : Nat), Contiguous s e rs →
    (rs.map (fun r => scanRange r.from_ r.to_)).flatten = List.range' s (e - s)
  | [], s, e, hc => by
    simp [Contiguous] at hc
    subst hc
    simp
  | r0 :: rs, s, e, hc => by
    obtain ⟨h1, h2, h3⟩ := hc
    have hle := Contiguous.le rs r0.to_ e h3
    have ih := Contiguous.heights rs r0.to_ e h3
    subst h1
    rw [List.map_cons, List.flatten_cons, ih, scanRange]
    have key := List.range'_append r0.from_ (r0.to_ - r0.from_) (e - r0.to_) 1
    have h4 : r0.from_ + 1 * (r0.to_ - r0.from_) = r0.to_ := by omega
    have h5 : e - r0.to_ + (r0.to_ - r0.from_) = e - r0.from_ := by omega
    rw [h4, h5] at key
    exact key

/-- Closed form of the launch loop: from counter `i` it launches one worker
for each of the `fuel` counters `i, i+1, ...`, none of the `uint64`
operations wrapping. -/
theorem scanRangeJobs_eq_map (start end_ step jobs : Nat)
    (hstep : 1 ≤ step) (hle : jobs * step ≤ end_ - start) (hse : start < end_)
    (he : end_ < u64) :
    ∀ fuel i, i + fuel = jobs →
      scanRangeJobs start end_ step jobs fuel i =
        (List.range' i fuel).map (fun k =>
          { job := k + 1, from_ := start + k * step,
            to_ := if k + 1 = jobs then end_ else start + k * step + step }) := by
  intro fuel
  induction fuel with
  | zero => intro i _; simp [scanRangeJobs]
  | succ fuel ih =>
    intro i hi
    have hlt : i < jobs := by omega
    have hmul : (i + 1) * step ≤ jobs * step := Nat.mul_le_mul_right step (by omega)
    have hsucc : (i + 1) * step = i * step + step := Nat.succ_mul i step
    have hjs : jobs ≤ jobs * step := Nat.le_mul_of_pos_right jobs hstep
    have h1 : add64 i 1 = i + 1 := add64_of_lt (by omega)
    have h2 : mul64 i step = i * step := mul64_of_lt (by omega)
    have h3 : mul64 (i + 1) step = (i + 1) * step := mul64_of_lt (by omega)
    have h4 : add64 start (i * step) = start + i * step := add64_of_lt (by omega)
    have h5 : add64 start ((i + 1) * step) = start + (i + 1) * step := add64_of_lt (by omega)
    have h6 : start + (i + 1) * step = start + i * step + step := by omega
    simp only [scanRangeJobs, hlt, if_true, h1, h2, h3, h4, h5, h6, List.range'_succ,
      List.map_cons]
    rw [ih (i + 1) (by omega)]

/-- What `doScanRangeJob` computes on a valid range: the effective number of
workers and the step, and the list of workers launched with them. -/
theorem doScanRangeJob_eq (jobCount start end_ : Nat) (hj : 1 ≤ jobCount)
    (hse : start < end_) (he : end_ < u64) :
    doScanRangeJob jobCount start end_ =
      some (scanRangeJobs start end_
        (if (end_ - start) / jobCount = 0 then end_ - start else (end_ - start) / jobCount)
        (if (end_ - start) / jobCount = 0 then 1 else jobCount)
        (if (end_ - start) / jobCount = 0 then 1 else jobCount) 0) := by
  have h0 : jobCount ≠ 0 := by omega
  have h1 : ¬ start ≥ end_ := by omega
  have h2 : sub64 end_ start = end_ - start := sub64_of_le (by omega) he
  simp only [doScanRangeJob, h0, h1, h2, if_false]

/-- The effective step is positive and the effective workers fit in the
window. -/
theorem doScanRangeJob_step (jobCount start end_ : Nat) (hse : start < end_) :
    1 ≤ (if (end_ - start) / jobCount = 0 then end_ - start else (end_ - start) / jobCount) ∧
    (if (end_ - start) / jobCount = 0 then 1 else jobCount) *
      (if (end_ - start) / jobCount = 0 then end_ - start else (end_ - start) / jobCount)
        ≤ end_ - start := by
  by_cases h : (end_ - start) / jobCount = 0
  · simp only [h, if_true]; omega
  · simp only [h, if_false]
    have := Nat.div_mul_le_self (end_ - start) jobCount
    rw [Nat.mul_comm] at this
    exact ⟨Nat.pos_of_ne_zero h, this⟩

/-- C1: for every `start < end` and `jobCount ≥ 1` (all `uint64`),
`doScanRangeJob` launches its workers on sub-ranges `[from, to)` that are laid
end to end from `start` to `end`, are pairwise disjoint, and cover every
height of `[start, end)` exactly once and no height outside it; the workers
together visit exactly the heights `start, ..., end - 1`. -/
theorem doScanRangeJob_partition (jobCount start end_ : Nat)
    (hj : 1 ≤ jobCount) (hse : start < end_) (he : end_ < u64) :
    ∃ rs, doScanRangeJob jobCount start end_ = some rs ∧
      Contiguous start end_ rs ∧
      rs.Pairwise (fun a b => a.to_ ≤ b.from_) ∧
      (∀ h, start ≤ h ∧ h < end_ → rs.countP (fun r => r.covers h) = 1) ∧
      (∀ h, ¬ (start ≤ h ∧ h < end_) → ∀ r ∈ rs, r.covers h = false) ∧
      (rs.map (fun r => scanRange r.from_ r.to_)).flatten = List.range' start (end_ - start) := by
  obtain ⟨hs1, hs2⟩ := doScanRangeJob_step jobCount start end_ hse
  refine ⟨_, doScanRangeJob_eq jobCount start end_ hj hse he, ?_⟩
  have hc := scanRangeJobs_contiguous start end_ _ _ hs1 hs2 hse he _ 0 (Nat.zero_add _)
  have hne : (0 : Nat) ≠ (if (end_ - start) / jobCount = 0 then 1 else jobCount) := by
    split <;> omega
  simp only [hne, if_false, Nat.zero_mul, Nat.add_zero] at hc
  refine ⟨hc, Contiguous.pairwise _ _ _ hc, ?_, ?_, Contiguous.heights _ _ _ hc⟩
  · intro h hh
    rw [Contiguous.countP_covers _ _ _ hc h, if_pos hh]
  · intro h hh r hr
    have := Contiguous.countP_covers _ _ _ hc h
    rw [if_neg hh, List.countP_eq_zero] at this
    simpa using this r hr

/-- Instance of C1: three workers over the window `[10, 20)`. -/
theorem doScanRangeJob_partition_witness :
    (1 ≤ 3 ∧ 10 < 20 ∧ 20 < u64) ∧
    ∃ rs, doScanRangeJob 3 10 20 = some rs ∧
      Contiguous 10 20 rs ∧
      rs.Pairwise (fun a b => a.to_ ≤ b.from_) ∧
      (∀ h, 10 ≤ h ∧ h < 20 → rs.countP (fun r => r.covers h) = 1) ∧
      (∀ h, ¬ (10 ≤ h ∧ h < 20) → ∀ r ∈ rs, r.covers h = false) ∧
      (rs.map (fun r => scanRange r.from_ r.to_)).flatten = List.range' 10 (20 - 10) :=
  ⟨⟨by decide, by decide, by decide⟩,
    doScanRangeJob_partition 3 10 20 (by decide) (by decide) (by decide)⟩

/-- C2 as stated fails: with `jobCount = 2` and the window `[0, 1)` the step
`(1 - 0) / 2` is zero, so the guard `if step == 0 { jobs = 1; step = count }`
fires and a single worker is launched, not two. -/
theorem doScanRangeJob_jobCount_counterexample :
    doScanRangeJob 2 0 1 = some [{ job := 1, from_ := 0, to_ := 1 }] ∧
    ¬ ∃ rs, doScanRangeJob 2 0 1 = some rs ∧ rs.length = 2 := by
  have h : doScanRangeJob 2 0 1 = some [{ job := 1, from_ := 0, to_ := 1 }] := by decide
  refine ⟨h, ?_⟩
  rintro ⟨rs, h1, h2⟩
  rw [h] at h1
  cases h1
  simp at h2

/-- C2 (amended): for every `start < end` and `jobCount ≥ 1`, when the window
holds at least `jobCount` heights `doScanRangeJob` launches exactly `jobCount`
workers, worker `i` (counted from 0) having job id `i + 1`, starting at
`start + i * w` with `w = (end - start) / jobCount`, and stopping `w` heights
later, except the last one, which stops at `end`; when the window holds fewer
than `jobCount` heights, and also when `jobCount = 1`, a single worker with job
id 1 gets the whole window `[start, end)`. -/
theorem doScanRangeJob_workers (jobCount start end_ : Nat)
    (hj : 1 ≤ jobCount) (hse : start < end_) (he : end_ < u64) :
    ∃ rs, doScanRangeJob jobCount start end_ = some rs ∧
      (jobCount ≤ end_ - start →
        rs.length = jobCount ∧
        ∀ i, i < jobCount → rs[i]? = some
          { job := i + 1,
            from_ := start + i * ((end_ - start) / jobCount),
            to_ := if i + 1 = jobCount then end_
              else start + i * ((end_ - start) / jobCount) + (end_ - start) / jobCount }) ∧
      (end_ - start < jobCount → rs = [{ job := 1, from_ := start, to_ := end_ }]) ∧
      (jobCount = 1 → rs = [{ job := 1, from_ := start, to_ := end_ }]) := by
  obtain ⟨hs1, hs2⟩ := doScanRangeJob_step jobCount start end_ hse
  refine ⟨_, doScanRangeJob_eq jobCount start end_ hj hse he, ?_⟩
  rw [scanRangeJobs_eq_map start end_ _ _ hs1 hs2 hse he _ 0 (Nat.zero_add _)]
  refine ⟨?_, ?_, ?_⟩
  · intro hle
    have hpos : (end_ - start) / jobCount ≠ 0 := by
      have := (Nat.le_div_iff_mul_le (by omega : 0 < jobCount)).mpr
        (by omega : 1 * jobCount ≤ end_ - start)
      omega
    simp only [hpos, if_false]
    refine ⟨by simp, ?_⟩
    intro i hi
    simp [List.getElem?_map, List.getElem?_range', hi]
  · intro hlt
    have hz : (end_ - start) / jobCount = 0 := Nat.div_eq_of_lt hlt
    simp [hz]
  · intro h1
    subst h1
    have hnz : (end_ - start) / 1 ≠ 0 := by rw [Nat.div_one]; omega
    simp [hnz]

/-- Instance of C2 (amended): three workers over the window `[10, 20)`. -/
theorem doScanRangeJob_workers_witness :
    (1 ≤ 3 ∧ 10 < 20 ∧ 20 < u64) ∧
    ∃ rs, doScanRangeJob 3 10 20 = some rs ∧
      (3 ≤ 20 - 10 →
        rs.length = 3 ∧
        ∀ i, i < 3 → rs[i]? = some
          { job := i + 1,
            from_ := 10 + i * ((20 - 10) / 3),
            to_ := if i + 1 = 3 then 20
              else 10 + i * ((20 - 10) / 3) + (20 - 10) / 3 }) ∧
      (20 - 10 < 3 → rs = [{ job := 1, from_ := 10, to_ := 20 }]) ∧
      (3 = 1 → rs = [{ job := 1, from_ := 10, to_ := 20 }]) :=
  ⟨⟨by decide, by decide, by decide⟩,
    doScanRangeJob_workers 3 10 20 (by decide) (by decide) (by decide)⟩

/-! ## Properties of the dedup cache -/

theorem CacheHolds_init : CacheHolds cachedBlocks (List.replicate 100 "") := by
  refine ⟨rfl, [], List.replicate 100 "", ?_, ?_, ?_, ?_, ?_⟩ <;> simp [cachedBlocks]

/-- One `addBlock` on a well-formed cache succeeds and keeps it well formed,
with the new hash appended to the history. -/
theorem CacheHolds_addBlock (cache : cachedSacnnedBlocks) (hist : List String) (x : String)
    (hc : CacheHolds cache hist) :
    ∃ cache1, cache.addBlock x = some cache1 ∧ CacheHolds cache1 (hist ++ [x]) := by
  obtain ⟨hcap, newer, older, hh, hd, hn, hlt, hlen⟩ := hc
  have hhist : 100 ≤ hist.length := by
    have := congrArg List.length hd
    simp only [List.length_drop, List.length_append] at this
    omega
  obtain ⟨b, older1, rfl⟩ : ∃ b older1, older = b :: older1 := by
    cases older with
    | nil => simp at hlen; omega
    | cons b t => exact ⟨b, t, rfl⟩
  have hidx : 0 ≤ cache.nextIndex ∧ cache.nextIndex < (cache.hashes.length : Int) := by
    rw [hn, hh]; simp only [List.length_append, List.length_cons]; omega
  have hcap0 : cache.capacity ≠ 0 := by rw [hcap]; decide
  have hset : cache.hashes.set cache.nextIndex.toNat x = newer ++ x :: older1 := by
    rw [hn, hh, Int.toNat_ofNat, List.set_append_right _ _ (Nat.le_refl _)]
    simp
  have hdrop : (hist ++ [x]).drop ((hist ++ [x]).length - 100) = older1 ++ newer ++ [x] := by
    have h1 : (hist ++ [x]).length - 100 = (hist.length - 100) + 1 := by
      simp only [List.length_append, List.length_singleton]; omega
    rw [h1, List.drop_append_of_le_length (by omega), ← List.drop_drop, hd]
    simp
  have hwrap : wrapInt64 (cache.nextIndex + 1) = (newer.length : Int) + 1 := by
    rw [hn]; unfold wrapInt64; omega
  have hadd : cache.addBlock x = some
      { capacity := cache.capacity
        nextIndex := Int.tmod (wrapInt64 (cache.nextIndex + 1)) cache.capacity
        hashes := cache.hashes.set cache.nextIndex.toNat x } := by
    simp only [cachedSacnnedBlocks.addBlock, hidx, hcap0, and_self, if_true, if_false]
  refine ⟨_, hadd, ?_⟩
  by_cases hfull : newer.length + 1 < 100
  · refine ⟨hcap, newer ++ [x], older1, ?_, ?_, ?_, ?_, ?_⟩
    · simp [hset]
    · rw [hdrop]; simp
    · simp only [hwrap, hcap, List.length_append, List.length_singleton]
      rw [Int.tmod_eq_of_lt (by omega) (by omega)]
      simp
    · simpa using hfull
    · simp only [List.length_append, List.length_cons, List.length_nil] at hlen ⊢
      omega
  · have hnl : newer.length = 99 := by omega
    have ho : older1 = [] := by
      simp only [List.length_cons] at hlen
      exact List.length_eq_zero.mp (by omega)
    subst ho
    refine ⟨hcap, [], newer ++ [x], ?_, ?_, ?_, ?_, ?_⟩
    · simp [hset]
    · rw [hdrop]; simp
    · simp only [hwrap, hcap, hnl, List.length_nil]
      decide
    · simp
    · simp [hnl]

/-- A sequence of `addBlock` calls on a well-formed cache succeeds and keeps it
well formed. -/
theorem CacheHolds_addBlocks : ∀ (xs : List String) (cache : cachedSacnnedBlocks)
    (hist : List String), CacheHolds cache hist →
    ∃ cache1, cache.addBlocks xs = some cache1 ∧ CacheHolds cache1 (hist ++ xs)
  | [], cache, hist, hc => ⟨cache, rfl, by simpa using hc⟩
  | x :: xs, cache, hist, hc => by
    obtain ⟨c1, h1, hc1⟩ := CacheHolds_addBlock cache hist x hc
    obtain ⟨c2, h2, hc2⟩ := CacheHolds_addBlocks xs c1 (hist ++ [x]) hc1
    refine ⟨c2, ?_, by simpa using hc2⟩
    simp only [cachedSacnnedBlocks.addBlocks, h1, h2]

/-- Membership in a well-formed cache is membership in the last hundred
entries of its history. -/
theorem CacheHolds_isScanned (cache : cachedSacnnedBlocks) (hist : List String) (h : String)
    (hc : CacheHolds cache hist) :
    cache.isScanned h = true ↔ h ∈ hist.drop (hist.length - 100) := by
  obtain ⟨_, newer, older, hh, hd, _, _, _⟩ := hc
  rw [hd, cachedSacnnedBlocks.isScanned, hh]
  simp only [List.any_eq_true, beq_iff_eq, List.mem_append]
  constructor
  · rintro ⟨b, hb, rfl⟩; exact hb.symm
  · intro hb; exact ⟨h, hb.symm, rfl⟩

/-- The last hundred entries of the padded history are the last hundred
inserted hashes, preceded by empty strings while fewer than a hundred hashes
have been inserted. -/
theorem mem_padded_history (xs : List String) (h : String) :
    h ∈ (List.replicate 100 "" ++ xs).drop ((List.replicate 100 "" ++ xs).length - 100) ↔
      h ∈ lastInserted 100 xs ∨ (h = "" ∧ xs.length < 100) := by
  have h1 : (List.replicate 100 "" ++ xs).length - 100 = xs.length := by simp
  rw [h1, List.drop_append_eq_append_drop, List.drop_replicate, List.mem_append,
    List.mem_replicate, List.length_replicate, lastInserted]
  constructor
  · rintro (⟨h2, h3⟩ | h2)
    · exact Or.inr ⟨h3, by omega⟩
    · exact Or.inl h2
  · rintro (h2 | ⟨h2, h3⟩)
    · exact Or.inr h2
    · exact Or.inl ⟨by omega, h2⟩

/-- The slots made by `make([]string, 100)` hold empty strings: on the initial
cache the empty string, which is not the `Hex()` form of any hash, is found
although nothing has been inserted. -/
theorem isScanned_initial_empty :
    cachedBlocks.addBlocks [] = some cachedBlocks ∧
    cachedBlocks.isScanned "" = true ∧
    "" ∉ lastInserted 100 [] := by
  refine ⟨rfl, by decide, by simp [lastInserted]⟩

/-- After every sequence `xs` of `addBlock` calls on the initial cache (all of
which succeed), `isScanned h` is true exactly when `h` is one of the last 100
hashes inserted, or `h` is the empty string and fewer than 100 hashes have
been inserted so far. -/
theorem isScanned_iff_padded (xs : List String) (h : String) :
    ∃ cache, cachedBlocks.addBlocks xs = some cache ∧
      (cache.isScanned h = true ↔
        h ∈ lastInserted 100 xs ∨ (h = "" ∧ xs.length < 100)) := by
  obtain ⟨cache, h1, hc⟩ := CacheHolds_addBlocks xs cachedBlocks _ CacheHolds_init
  exact ⟨cache, h1, (CacheHolds_isScanned cache _ h hc).trans (mem_padded_history xs h)⟩

/-- The `Hex()` form of a hash is never the empty string. -/
theorem Hex_ne_empty (b : List Byte) : Hex b ≠ "" := by
  intro h
  have := congrArg String.length h
  simp [Hex, String.length] at this

/-- C3: after every sequence `xs` of `addBlock` calls on the initial cache
(capacity 100, next index 0, 100 empty slots), all of which succeed, and for
every hash string `h` (a non-empty string, as every `block.Hash().Hex()` is),
`isScanned h` is true if and only if `h` is one of the last 100 hashes
inserted. -/
theorem isScanned_iff_lastInserted (xs : List String) (h : String) (hne : h ≠ "") :
    ∃ cache, cachedBlocks.addBlocks xs = some cache ∧
      (cache.isScanned h = true ↔ h ∈ lastInserted 100 xs) := by
  obtain ⟨cache, h1, h2⟩ := isScanned_iff_padded xs h
  refine ⟨cache, h1, h2.trans ?_⟩
  constructor
  · rintro (h3 | ⟨h3, _⟩)
    · exact h3
    · exact absurd h3 hne
  · intro h3
    exact Or.inl h3

/-- Instance of C3: after two insertions the hash of a block, a `Hex()` string,
is found exactly when it is one of the two. -/
theorem isScanned_iff_lastInserted_witness :
    Hex (List.replicate 32 0x0c) ≠ "" ∧
    ∃ cache, cachedBlocks.addBlocks [Hex (List.replicate 32 0x0c), "0xab"] = some cache ∧
      (cache.isScanned (Hex (List.replicate 32 0x0c)) = true ↔
        Hex (List.replicate 32 0x0c) ∈
          lastInserted 100 [Hex (List.replicate 32 0x0c), "0xab"]) :=
  ⟨Hex_ne_empty _,
    isScanned_iff_lastInserted [Hex (List.replicate 32 0x0c), "0xab"]
      (Hex (List.replicate 32 0x0c)) (Hex_ne_empty _)⟩

/-! ## Properties of the classifier -/

/-- C4: for a source-chain native token, with a receipt supplied, a non-nil
`To` and a recovered sender `From`, `verifyTransaction` returns Deposit with
`Amount = tx.Value` and `User = From` when `To` equals `DepositAddress` up to
case; otherwise Redeemed with `Amount = tx.Value` and `User = To` when `From`
equals `DepositAddress`; otherwise `(Null, nil, nil)`. In both event cases
`TxHash` is the hash of the transaction and `BlockNumber` the block number of
the receipt, and Deposit wins when both addresses match. -/
theorem verifyTransaction_native (scanner : ethSwapScanner) (tx : Transaction) (r : Receipt)
    (tokenCfg : TokenConfig) (to_ txFrom : Address)
    (hsrc : tokenCfg.IsSrcToken = true) (hnative : tokenCfg.IsNativeToken = true)
    (hto : tx.To = some to_) (hfrom : scanner.AsMessage tx = some txFrom) :
    verifyTransaction scanner tx (some r) tokenCfg =
      if EqualFold (Hex to_) tokenCfg.DepositAddress then
        some (.TypeDeposit,
          some { TxHash := tx.Hash
                 BlockTime := getBlockTimestamp scanner r.BlockNumber
                 BlockNumber := r.BlockNumber
                 Amount := some tx.Value
                 User := txFrom }, none)
      else if EqualFold (Hex txFrom) tokenCfg.DepositAddress then
        some (.TypeRedeemed,
          some { TxHash := tx.Hash
                 BlockTime := getBlockTimestamp scanner r.BlockNumber
                 BlockNumber := r.BlockNumber
                 Amount := some tx.Value
                 User := to_ }, none)
      else some (.TypeNull, none, none) := by
  simp only [verifyTransaction, hto, hfrom]
  split <;> simp only [verifySwitch, hsrc, hnative, if_true]

/-- Instance of C4: scenario S1, a native deposit of one ether by
`0xCAFE…02`. -/
theorem verifyTransaction_native_witness :
    (nativeToken.IsSrcToken = true ∧ nativeToken.IsNativeToken = true ∧
      nativeDepositTx.To = some addrDeposit ∧
      (scannerOf addrUser true).AsMessage nativeDepositTx = some addrUser) ∧
    verifyTransaction (scannerOf addrUser true) nativeDepositTx (some (receiptOf []))
        nativeToken =
      some (.TypeDeposit,
        some { TxHash := List.replicate 32 0x07
               BlockTime := 1600000000
               BlockNumber := some 5
               Amount := some 1000000000000000000
               User := addrUser }, none) :=
  ⟨⟨rfl, rfl, rfl, rfl⟩,
    (verifyTransaction_native (scannerOf addrUser true) nativeDepositTx (receiptOf [])
      nativeToken addrDeposit addrUser rfl rfl rfl rfl).trans (by decide)⟩

/-- With no receipt in hand, every transaction that reaches the ERC-20 deposit
branch makes `verifyTransaction` dereference the nil receipt. -/
theorem verifyTransaction_erc20_nil_receipt (scanner : ethSwapScanner) (tx : Transaction)
    (tokenCfg : TokenConfig) (to_ txFrom : Address)
    (hsrc : tokenCfg.IsSrcToken = true) (hnative : tokenCfg.IsNativeToken = false)
    (hcall : tokenCfg.CallByContract = "")
    (hto : tx.To = some to_) (hfrom : scanner.AsMessage tx = some txFrom)
    (hmatch : EqualFold (Hex to_) tokenCfg.TokenAddress = true) :
    verifyTransaction scanner tx none tokenCfg = none := by
  by_cases h : EqualFold (Hex txFrom) tokenCfg.DepositAddress = true <;>
    simp [verifyTransaction, verifySwitch, verifyErc20SwapinTx, verifyErc20RedeemTx, hto,
      hfrom, hcall, hsrc, hnative, hmatch, h]

/-- C5 fails on the code: in scenario S3 (tx-input mode, `transfer` to the
bridge address) the deposit parser alone accepts the call-data, but
`verifyTransaction` panics on `receipt.BlockNumber` before it reaches the
parser, and so does `scanTransaction`. -/
theorem verifyTransaction_txInput_panics :
    (parseErc20SwapinTxInput erc20DepositTx.Data erc20Token.DepositAddress
        { TxHash := erc20DepositTx.Hash, BlockTime := 0, BlockNumber := none,
          Amount := none, User := zeroAddress }).map Prod.snd = some none ∧
    verifyTransaction (scannerOf (List.replicate 20 0xaa) false) erc20DepositTx none
      erc20Token = none ∧
    scanTransaction (scannerOf (List.replicate 20 0xaa) false) [erc20Token]
      erc20DepositTx = none := by
  refine ⟨by decide, by decide, by decide⟩

/-- The burn verifier never returns `ErrTxWithWrongReceiver`: its two parsers
only return `ErrTxWithWrongInput`, `ErrTxFuncHashMismatch`,
`ErrSwapoutLogNotFound` or nil. -/
theorem parseSwapoutTxLogs_result (logs : List Log) (tokenCfg : TokenConfig)
    (swapData : SwapEvent) :
    (parseSwapoutTxLogs logs tokenCfg swapData).1 = swapData ∧
    ((parseSwapoutTxLogs logs tokenCfg swapData).2 = none ∨
      (parseSwapoutTxLogs logs tokenCfg swapData).2 = some .ErrSwapoutLogNotFound) := by
  induction logs with
  | nil => simp [parseSwapoutTxLogs]
  | cons rlog rest ih =>
    unfold parseSwapoutTxLogs
    split
    · exact ih
    · split
      · exact ih
      · split
        · exact ih
        · split
          · simp
          · exact ih

/-- The mint log parser leaves the event untouched and returns nil or
`ErrSwapoutLogNotFound`. -/
theorem parseMintTxLogs_result (logs : List Log) (tokenCfg : TokenConfig)
    (swapData : SwapEvent) :
    (parseMintTxLogs logs tokenCfg swapData).1 = swapData ∧
    ((parseMintTxLogs logs tokenCfg swapData).2 = none ∨
      (parseMintTxLogs logs tokenCfg swapData).2 = some .ErrSwapoutLogNotFound) := by
  induction logs with
  | nil => simp [parseMintTxLogs]
  | cons rlog rest ih =>
    unfold parseMintTxLogs
    split
    · exact ih
    · split
      · exact ih
      · split
        · exact ih
        · split
          · simp
          · exact ih

/-- C6: when `verifyTransaction` reaches the Deposit parser (source-chain
ERC-20 token, `To` equal to the effective contract, sender other than the
bridge address) or the Burn parser (destination-chain token, same conditions)
and that parser returns `ErrTxWithWrongReceiver`, `verifyTransaction` returns
`(Null, nil, ErrTxWithWrongReceiver)` and `scanTransaction` makes no
persistence call for that transaction and token. -/
theorem verifyTransaction_wrongReceiver (scanner : ethSwapScanner) (tx : Transaction)
    (receipt : Option Receipt) (tokenCfg : TokenConfig) (to_ txFrom : Address) (r : Receipt)
    (swapData : SwapEvent)
    (hto : tx.To = some to_) (hfrom : scanner.AsMessage tx = some txFrom)
    (hreceipt : receiptInHand scanner tx receipt tokenCfg = some r)
    (hmatch : EqualFold (Hex to_) (effectiveContract tokenCfg) = true)
    (huser : EqualFold (Hex txFrom) tokenCfg.DepositAddress = false)
    (hparser :
      (tokenCfg.IsSrcToken = true ∧ tokenCfg.IsNativeToken = false ∧
        verifyErc20SwapinTx scanner tx (some r) tokenCfg =
          some (swapData, some .ErrTxWithWrongReceiver)) ∨
      (tokenCfg.IsSrcToken = false ∧
        verifySwapoutTx scanner tx (some r) tokenCfg =
          some (swapData, some .ErrTxWithWrongReceiver))) :
    verifyTransaction scanner tx receipt tokenCfg =
      some (.TypeNull, none, some .ErrTxWithWrongReceiver) ∧
    scanToken scanner tx receipt tokenCfg = some [] := by
  have hsw : ∀ cmp : String, EqualFold (Hex to_) cmp = true →
      verifySwitch scanner tx to_ txFrom cmp (some r) tokenCfg =
        some (.TypeNull, none, some .ErrTxWithWrongReceiver) := by
    intro cmp hcmp
    rcases hparser with ⟨h1, h2, h3⟩ | ⟨h1, h3⟩
    · simp [verifySwitch, h1, h2, h3, hcmp, huser]
    · simp [verifySwitch, h1, h3, hcmp, huser]
  have hv : verifyTransaction scanner tx receipt tokenCfg =
      some (.TypeNull, none, some .ErrTxWithWrongReceiver) := by
    unfold receiptInHand at hreceipt
    unfold effectiveContract at hmatch
    by_cases hc : tokenCfg.CallByContract ≠ ""
    · rw [if_pos hc] at hreceipt hmatch
      cases receipt with
      | none =>
        simp only at hreceipt
        simp only [verifyTransaction, hto, hfrom, hreceipt]
        rw [if_pos hc]
        exact hsw _ hmatch
      | some r0 =>
        simp only [Option.some.injEq] at hreceipt
        subst hreceipt
        simp only [verifyTransaction, hto, hfrom]
        rw [if_pos hc]
        exact hsw _ hmatch
    · rw [if_neg hc] at hreceipt hmatch
      subst hreceipt
      simp only [verifyTransaction, hto, hfrom]
      rw [if_neg hc]
      exact hsw _ hmatch
  exact ⟨hv, by simp [scanToken, hv, syncSwapEvent]⟩

/-- Instance of C6: an ERC-20 `Transfer` to `0xCAFE…02` instead of the bridge
address, seen through its receipt. -/
theorem verifyTransaction_wrongReceiver_witness :
    (erc20DepositTx.To = some addrToken ∧
      (scannerOf addrUser true).AsMessage erc20DepositTx = some addrUser ∧
      receiptInHand (scannerOf addrUser true) erc20DepositTx
        (some (receiptOf [transferLog addrUser (some [1])])) erc20Token =
        some (receiptOf [transferLog addrUser (some [1])]) ∧
      EqualFold (Hex addrToken) (effectiveContract erc20Token) = true ∧
      EqualFold (Hex addrUser) erc20Token.DepositAddress = false) ∧
    verifyTransaction (scannerOf addrUser true) erc20DepositTx
        (some (receiptOf [transferLog addrUser (some [1])])) erc20Token =
      some (.TypeNull, none, some .ErrTxWithWrongReceiver) ∧
    scanToken (scannerOf addrUser true) erc20DepositTx
        (some (receiptOf [transferLog addrUser (some [1])])) erc20Token = some [] :=
  ⟨⟨rfl, rfl, by decide, by decide, by decide⟩,
    verifyTransaction_wrongReceiver (scannerOf addrUser true) erc20DepositTx
      (some (receiptOf [transferLog addrUser (some [1])])) erc20Token addrToken addrUser
      (receiptOf [transferLog addrUser (some [1])])
      { TxHash := List.replicate 32 0x08, BlockTime := 1600000000, BlockNumber := some 5,
        Amount := none, User := zeroAddress }
      rfl rfl (by decide) (by decide) (by decide) (Or.inl ⟨rfl, rfl, by decide⟩)⟩

/-- The calls made by the token loop, when it completes, are the calls of its
iterations in order. -/
theorem scanTokens_eq_flatten (scanner : ethSwapScanner) (tx : Transaction)
    (receipt : Option Receipt) :
    ∀ (tokens : List TokenConfig) (calls : List DbCall),
      scanTokens scanner tx receipt tokens = some calls →
      calls = (tokens.map (fun tokenCfg =>
        (scanToken scanner tx receipt tokenCfg).getD [])).flatten
  | [], calls, h => by
    simp only [scanTokens, Option.some.injEq] at h
    simp [← h]
  | tokenCfg :: rest, calls, h => by
    unfold scanTokens at h
    cases h1 : scanToken scanner tx receipt tokenCfg with
    | none => simp [h1] at h
    | some cs =>
      cases h2 : scanTokens scanner tx receipt rest with
      | none => simp [h1, h2] at h
      | some more =>
        simp only [h1, h2, Option.some.injEq] at h
        have ih := scanTokens_eq_flatten scanner tx receipt rest more h2
        simp [← h, ← ih, h1]

/-- The calls of the `switch swapTxType` are the expected ones. -/
theorem syncSwapEvent_expected (scanner : ethSwapScanner) (tokenCfg : TokenConfig)
    (res : SwapTxType × Option SwapEvent × Option VerifyError) :
    ExpectedCalls scanner tokenCfg res
      (syncSwapEvent res.1 tokenCfg ⟨res.2.1, scanner.cachedDecimal tokenCfg⟩) := by
  obtain ⟨ty, ev, err⟩ := res
  cases ty <;> simp [ExpectedCalls, syncSwapEvent]

/-- When `verifyTransaction` returns for every token, the token loop completes
and makes, token after token, the expected calls. -/
theorem scanTokens_total (scanner : ethSwapScanner) (tx : Transaction)
    (receipt : Option Receipt) :
    ∀ (tokens : List TokenConfig)
      (results : List (SwapTxType × Option SwapEvent × Option VerifyError)),
      List.Forall₂ (fun tokenCfg res =>
        verifyTransaction scanner tx receipt tokenCfg = some res) tokens results →
      ∃ callss : List (List DbCall),
        scanTokens scanner tx receipt tokens = some callss.flatten ∧
        List.Forall₂ (fun (p : TokenConfig × SwapTxType × Option SwapEvent × Option VerifyError)
          calls => ExpectedCalls scanner p.1 p.2 calls) (tokens.zip results) callss := by
  intro tokens results h
  induction h with
  | nil => exact ⟨[], rfl, List.Forall₂.nil⟩
  | @cons tokenCfg res rest results1 hhead _ ih =>
    obtain ⟨callss, h1, h2⟩ := ih
    refine ⟨syncSwapEvent res.1 tokenCfg ⟨res.2.1, scanner.cachedDecimal tokenCfg⟩ :: callss,
      ?_, ?_⟩
    · obtain ⟨ty, ev, err⟩ := res
      simp only [scanTokens, scanToken, hhead, h1, List.flatten_cons]
    · exact List.Forall₂.cons (syncSwapEvent_expected scanner tokenCfg res) h2

/-- When `verifyTransaction` panics for one of the tokens, so does the token
loop. -/
theorem scanTokens_panic (scanner : ethSwapScanner) (tx : Transaction)
    (receipt : Option Receipt) (tokenCfg : TokenConfig)
    (hpanic : verifyTransaction scanner tx receipt tokenCfg = none) :
    ∀ tokens : List TokenConfig, tokenCfg ∈ tokens →
      scanTokens scanner tx receipt tokens = none
  | [], h => by simp at h
  | t :: rest, h => by
    unfold scanTokens
    rcases List.mem_cons.mp h with h1 | h1
    · subst h1
      simp [scanToken, hpanic]
    · have ih := scanTokens_panic scanner tx receipt tokenCfg hpanic rest h1
      cases h2 : scanToken scanner tx receipt t with
      | none => rfl
      | some cs => simp [ih]

/-- With a non-nil `To`, `scanTransaction` is the token loop run on the receipt
it fetched (or on none, outside receipt mode), unless the fetch fails. -/
theorem scanTransaction_eq_scanTokens (scanner : ethSwapScanner) (tokens : List TokenConfig)
    (tx : Transaction) (hto : tx.To ≠ none)
    (hfetch : scanner.scanReceipt = true → scanner.loopGetTxReceipt tx.Hash ≠ none) :
    scanTransaction scanner tokens tx =
      scanTokens scanner tx (scannedReceipt scanner tx) tokens := by
  cases hto1 : tx.To with
  | none => exact absurd hto1 hto
  | some to_ =>
    by_cases hs : scanner.scanReceipt = true
    · cases hr : scanner.loopGetTxReceipt tx.Hash with
      | none => exact absurd hr (hfetch hs)
      | some r => simp [scanTransaction, scannedReceipt, hto1, hs, hr]
    · simp [scanTransaction, scannedReceipt, hto1, hs]

/-- C7: (1) a transaction with nil `To` produces no persistence call, and
neither does one whose receipt cannot be fetched in receipt mode;
(2) otherwise, for a transaction with non-nil `To`, when `verifyTransaction`
returns for every configured token, `scanTransaction` completes, and its calls
are, token after token, exactly one persistence call when the type returned
for that token is Deposit, Mint, Burn or Redeemed - `AddDeposit`, `AddMint`,
`AddBurn`, `AddRedeemed` respectively, with that token and the converted
event - and no call when it is Null; (3) when `verifyTransaction` panics for a
configured token, `scanTransaction` panics. -/
theorem scanTransaction_persistence (scanner : ethSwapScanner) (tokens : List TokenConfig)
    (tx : Transaction) :
    (tx.To = none → scanTransaction scanner tokens tx = some []) ∧
    (tx.To ≠ none → scanner.scanReceipt = true → scanner.loopGetTxReceipt tx.Hash = none →
      scanTransaction scanner tokens tx = some []) ∧
    (∀ results : List (SwapTxType × Option SwapEvent × Option VerifyError),
      tx.To ≠ none →
      (scanner.scanReceipt = true → scanner.loopGetTxReceipt tx.Hash ≠ none) →
      List.Forall₂ (fun tokenCfg res =>
        verifyTransaction scanner tx (scannedReceipt scanner tx) tokenCfg = some res)
        tokens results →
      ∃ callss : List (List DbCall),
        scanTransaction scanner tokens tx = some callss.flatten ∧
        List.Forall₂ (fun (p : TokenConfig × SwapTxType × Option SwapEvent × Option VerifyError)
          calls => ExpectedCalls scanner p.1 p.2 calls) (tokens.zip results) callss) ∧
    (∀ tokenCfg ∈ tokens, tx.To ≠ none →
      (scanner.scanReceipt = true → scanner.loopGetTxReceipt tx.Hash ≠ none) →
      verifyTransaction scanner tx (scannedReceipt scanner tx) tokenCfg = none →
      scanTransaction scanner tokens tx = none) := by
  refine ⟨?_, ?_, ?_, ?_⟩
  · intro h
    simp [scanTransaction, h]
  · intro hto hs hr
    cases hto1 : tx.To with
    | none => exact absurd hto1 hto
    | some to_ => simp [scanTransaction, hto1, hs, hr]
  · intro results hto hfetch hall
    rw [scanTransaction_eq_scanTokens scanner tokens tx hto hfetch]
    exact scanTokens_total scanner tx _ tokens results hall
  · intro tokenCfg hmem hto hfetch hpanic
    rw [scanTransaction_eq_scanTokens scanner tokens tx hto hfetch]
    exact scanTokens_panic scanner tx _ tokenCfg hpanic tokens hmem

/-- Instance of C7: scenario S1 in receipt mode, scanned against the native
token, makes the one call `AddDeposit`. -/
theorem scanTransaction_persistence_witness :
    (nativeDepositTx.To ≠ none ∧
      ((scannerWith addrUser (receiptOf [])).scanReceipt = true →
        (scannerWith addrUser (receiptOf [])).loopGetTxReceipt nativeDepositTx.Hash ≠ none) ∧
      List.Forall₂ (fun tokenCfg res =>
        verifyTransaction (scannerWith addrUser (receiptOf [])) nativeDepositTx
          (scannedReceipt (scannerWith addrUser (receiptOf [])) nativeDepositTx) tokenCfg =
          some res)
        [nativeToken]
        [(.TypeDeposit,
          some { TxHash := List.replicate 32 0x07, BlockTime := 1600000000,
                 BlockNumber := some 5, Amount := some 1000000000000000000,
                 User := addrUser }, none)]) ∧
    (∃ callss : List (List DbCall),
      scanTransaction (scannerWith addrUser (receiptOf [])) [nativeToken] nativeDepositTx =
        some callss.flatten ∧
      List.Forall₂ (fun (p : TokenConfig × SwapTxType × Option SwapEvent × Option VerifyError)
        calls => ExpectedCalls (scannerWith addrUser (receiptOf [])) p.1 p.2 calls)
        ([nativeToken].zip
          [(.TypeDeposit,
            some { TxHash := List.replicate 32 0x07, BlockTime := 1600000000,
                   BlockNumber := some 5, Amount := some 1000000000000000000,
                   User := addrUser }, none)]) callss) ∧
    scanTransaction (scannerWith addrUser (receiptOf [])) [nativeToken] nativeDepositTx =
      some [.AddDeposit nativeToken
        ⟨some { TxHash := List.replicate 32 0x07, BlockTime := 1600000000,
                BlockNumber := some 5, Amount := some 1000000000000000000,
                User := addrUser }, 18⟩] :=
  ⟨⟨by decide, fun _ => by decide, List.Forall₂.cons (by decide) List.Forall₂.nil⟩,
    (scanTransaction_persistence (scannerWith addrUser (receiptOf [])) [nativeToken]
      nativeDepositTx).2.2.1 _ (by decide) (fun _ => by decide)
      (List.Forall₂.cons (by decide) List.Forall₂.nil),
    by decide⟩

/-- An address taken from a 32-byte word is its low 20 bytes. -/
theorem BytesToAddress_word (w : List Byte) (h : w.length = 32) :
    BytesToAddress w = w.drop 12 := by
  simp [BytesToAddress, h]

/-- The deposit log parser leaves the event untouched, and its verdict is that
of the first log it looks at. -/
theorem parseErc20SwapinTxLogs_find (logs : List Log) (tokenCfg : TokenConfig)
    (swapData : SwapEvent) :
    parseErc20SwapinTxLogs logs tokenCfg swapData =
      (swapData,
        match logs.find? (isTransferLogOf tokenCfg) with
        | none => some .ErrDepositLogNotFound
        | some rlog =>
          if EqualFold (Hex (BytesToAddress (rlog.Topics.getD 2 []))) tokenCfg.DepositAddress
          then none else some .ErrTxWithWrongReceiver) := by
  induction logs with
  | nil => simp [parseErc20SwapinTxLogs]
  | cons rlog rest ih =>
    unfold parseErc20SwapinTxLogs
    rw [List.find?_cons]
    by_cases h1 : rlog.Removed = true
    · simp [h1, isTransferLogOf, ih, -List.getD_eq_getElem?_getD]
    · by_cases h2 : EqualFold (Hex rlog.Address) tokenCfg.TokenAddress = true
      · by_cases h3 : rlog.Topics.length = 3
        · by_cases h4 : rlog.Data = none
          · simp [h1, h2, h3, h4, isTransferLogOf, ih, -List.getD_eq_getElem?_getD]
          · have h4' : rlog.Data.isSome = true := by
              cases hd : rlog.Data with
              | none => exact absurd hd h4
              | some d => rfl
            by_cases h5 : rlog.Topics.getD 0 [] = transferLogTopic
            · have hp : isTransferLogOf tokenCfg rlog = true := by
                simp [isTransferLogOf, h1, h2, h3, h4', h5, -List.getD_eq_getElem?_getD]
              simp only [h1, h2, h3, h4, h5, hp, Bool.not_true, Bool.false_eq_true, if_false,
                if_true, ne_eq, not_true_eq_false, or_self]
              split <;> rfl
            · have hp : isTransferLogOf tokenCfg rlog = false := by
                simp [isTransferLogOf, h5, -List.getD_eq_getElem?_getD]
              simp [h1, h2, h3, h4, h5, hp, ih, -List.getD_eq_getElem?_getD]
        · simp [h1, h2, h3, isTransferLogOf, ih, -List.getD_eq_getElem?_getD]
      · simp [h1, h2, isTransferLogOf, ih, -List.getD_eq_getElem?_getD]

/-- C8 as stated fails: a `Transfer` log of the token whose `Data` is empty
but not nil is looked at, and with the bridge address as receiver the parser
accepts, although the list holds no log with non-empty data. The guard of the
source is `rlog.Data == nil`. -/
theorem parseErc20SwapinTxLogs_emptyData_counterexample :
    (parseErc20SwapinTxLogs [transferLog addrDeposit (some [])] erc20Token
      zeroEvent).2 = none ∧
    ¬ ∃ rlog ∈ [transferLog addrDeposit (some [])],
      rlog.Removed = false ∧
      EqualFold (Hex rlog.Address) erc20Token.TokenAddress = true ∧
      rlog.Topics.length = 3 ∧
      (∃ d, rlog.Data = some d ∧ d ≠ []) ∧
      rlog.Topics.getD 0 [] = transferLogTopic := by
  refine ⟨by decide, ?_⟩
  rintro ⟨rlog, hmem, -, -, -, ⟨d, hd, hne⟩, -⟩
  rw [List.mem_singleton] at hmem
  subst hmem
  simp only [transferLog, Option.some.injEq] at hd
  exact hne hd.symm

/-- C8 (amended): for every list of receipt logs (topics being 32-byte
hashes), `parseErc20SwapinTxLogs` looks only at logs that are not removed,
whose address equals `TokenAddress`, that have exactly 3 topics and non-nil
data (empty data passes), and whose first topic is the `Transfer` topic. The
first such log decides: nil when the low 20 bytes of its `topic[2]` equal
`DepositAddress`, `ErrTxWithWrongReceiver` when they do not; when the list
contains no such log the result is `ErrDepositLogNotFound`. The event record
is not modified. -/
theorem parseErc20SwapinTxLogs_spec (logs : List Log) (tokenCfg : TokenConfig)
    (swapData : SwapEvent)
    (hhash : ∀ rlog ∈ logs, ∀ t ∈ rlog.Topics, t.length = 32) :
    (parseErc20SwapinTxLogs logs tokenCfg swapData).1 = swapData ∧
    (∀ rlog, logs.find? (isTransferLogOf tokenCfg) = some rlog →
      (parseErc20SwapinTxLogs logs tokenCfg swapData).2 =
        if EqualFold (Hex ((rlog.Topics.getD 2 []).drop 12)) tokenCfg.DepositAddress
        then none else some .ErrTxWithWrongReceiver) ∧
    ((∀ rlog ∈ logs, isTransferLogOf tokenCfg rlog = false) →
      (parseErc20SwapinTxLogs logs tokenCfg swapData).2 = some .ErrDepositLogNotFound) := by
  rw [parseErc20SwapinTxLogs_find]
  refine ⟨rfl, ?_, ?_⟩
  · intro rlog hfind
    have hmem : rlog ∈ logs := List.mem_of_find?_eq_some hfind
    have hp : isTransferLogOf tokenCfg rlog = true := List.find?_some hfind
    have hlen : rlog.Topics.length = 3 := by
      simp only [isTransferLogOf, Bool.and_eq_true, decide_eq_true_eq] at hp
      exact hp.1.1.2
    have hget : rlog.Topics.getD 2 [] ∈ rlog.Topics := by
      rw [List.getD_eq_getElem _ _ (by omega)]
      exact List.getElem_mem _
    have h32 := hhash rlog hmem _ hget
    simp only [hfind, BytesToAddress_word _ h32]
  · intro hall
    have hnone : logs.find? (isTransferLogOf tokenCfg) = none := by
      rw [List.find?_eq_none]
      intro rlog hmem
      simp [hall rlog hmem]
    simp only [hnone]

/-- Instance of C8 (amended): one `Transfer` log of the token to the bridge
address is accepted. -/
theorem parseErc20SwapinTxLogs_spec_witness :
    (∀ rlog ∈ [transferLog addrDeposit (some [1])], ∀ t ∈ rlog.Topics, t.length = 32) ∧
    [transferLog addrDeposit (some [1])].find? (isTransferLogOf erc20Token) =
      some (transferLog addrDeposit (some [1])) ∧
    (parseErc20SwapinTxLogs [transferLog addrDeposit (some [1])] erc20Token
      zeroEvent).2 =
      if EqualFold (Hex (((transferLog addrDeposit (some [1])).Topics.getD 2 []).drop 12))
        erc20Token.DepositAddress
      then none else some .ErrTxWithWrongReceiver :=
  ⟨by decide, by decide,
    (parseErc20SwapinTxLogs_spec [transferLog addrDeposit (some [1])] erc20Token
      zeroEvent (by decide)).2.1 _ (by decide)⟩

theorem wrapInt64_of_lt (n : Nat) (h : n < 2 ^ 63) : wrapInt64 (n : Int) = n := by
  unfold wrapInt64
  have h' : n < 9223372036854775808 := by simpa using h
  omega

/-- While the addition does not overflow and the size is within the allocation
limit, `GetData` does not fail and returns the bytes `[start, start + size)`
that exist, zero-padded on the right to `size` bytes. -/
theorem GetData_eq (data : List Byte) (start size : Nat)
    (hsum : start + size < u64) (hsize : size ≤ maxAlloc) :
    GetData data start size =
      some ((data.drop start).take size ++
        List.replicate (size - ((data.drop start).take size).length) 0) := by
  have hsize63 : size < 2 ^ 63 := Nat.lt_of_le_of_lt hsize (by decide)
  have hpad : ∀ s : List Byte, RightPadBytes s (wrapInt64 (size : Int)) =
      some (s ++ List.replicate (size - s.length) 0) := by
    intro s
    rw [wrapInt64_of_lt size hsize63]
    unfold RightPadBytes
    by_cases h : (size : Int) ≤ (s.length : Int)
    · have h' : size - s.length = 0 := by omega
      simp [h, h']
    · simp [h, hsize]
  unfold GetData
  by_cases h1 : start > data.length
  · have hadd : add64 data.length size = data.length + size := add64_of_lt (by omega)
    have hdrop : data.drop start = [] := List.drop_eq_nil_of_le (by omega)
    simp only [h1, if_true, hadd, hdrop, List.take_nil, List.length_nil, Nat.sub_zero,
      List.nil_append]
    by_cases h2 : data.length + size > data.length
    · simp only [h2, if_true, Nat.le_refl, Nat.sub_self, List.take_zero, hpad, List.length_nil,
        Nat.sub_zero, List.nil_append]
    · have h3 : size = 0 := by omega
      subst h3
      have hp := hpad []
      simp only [Nat.cast_zero, List.length_nil, Nat.sub_zero, List.replicate_zero,
        List.append_nil] at hp
      simp [hp]
  · have hadd : add64 start size = start + size := add64_of_lt hsum
    simp only [h1, if_false, hadd]
    by_cases h2 : start + size > data.length
    · have hle : start ≤ data.length := by omega
      have htake : ∀ n, data.length - start ≤ n → (data.drop start).take n = data.drop start :=
        fun n hn => List.take_of_length_le (by simp only [List.length_drop]; omega)
      simp only [h2, if_true, hle, htake (data.length - start) (Nat.le_refl _),
        htake size (by omega), hpad]
    · have hle : start ≤ start + size := by omega
      have hsub : start + size - start = size := by omega
      simp only [h2, if_false, hle, if_true, hsub, hpad]

/-- The word read by `GetData(input, off, 32)`. -/
theorem GetData_word (input : List Byte) (off : Nat) (hoff : off + 32 < u64) :
    GetData input off 32 = some (wordAt input off) :=
  GetData_eq input off 32 hoff (by decide)

theorem wordAt_length (input : List Byte) (off : Nat) : (wordAt input off).length = 32 := by
  simp only [wordAt, List.length_append, List.length_replicate, List.length_take]
  omega

/-- C9: for every call-data byte string `parseErc20SwapinTxInput` returns
(never panicking, and leaving the event untouched) `ErrTxWithWrongInput`
exactly when the input is shorter than 4 bytes; otherwise
`ErrTxFuncHashMismatch` exactly when its first 4 bytes are neither
`0xa9059cbb` nor `0x23b872dd`; otherwise, with the receiver taken from the low
20 bytes of the zero-padded word at `[4, 36)` (transfer) or `[36, 68)`
(transferFrom), nil exactly when that address equals `DepositAddress` up to
case and `ErrTxWithWrongReceiver` exactly when it does not. -/
theorem parseErc20SwapinTxInput_spec (input : List Byte) (depositAddress : String)
    (swapData : SwapEvent) :
    ∃ err, parseErc20SwapinTxInput input depositAddress swapData = some (swapData, err) ∧
      (err = some .ErrTxWithWrongInput ↔ input.length < 4) ∧
      (4 ≤ input.length →
        (err = some .ErrTxFuncHashMismatch ↔
          input.take 4 ≠ transferFuncHash ∧ input.take 4 ≠ transferFromFuncHash) ∧
        (input.take 4 = transferFuncHash →
          (err = none ↔
            EqualFold (Hex ((wordAt input 4).drop 12)) depositAddress = true) ∧
          (err = some .ErrTxWithWrongReceiver ↔
            EqualFold (Hex ((wordAt input 4).drop 12)) depositAddress = false)) ∧
        (input.take 4 = transferFromFuncHash →
          (err = none ↔
            EqualFold (Hex ((wordAt input 36).drop 12)) depositAddress = true) ∧
          (err = some .ErrTxWithWrongReceiver ↔
            EqualFold (Hex ((wordAt input 36).drop 12)) depositAddress = false))) := by
  have hne : transferFuncHash ≠ transferFromFuncHash := by decide
  by_cases hlen : input.length < 4
  · refine ⟨some .ErrTxWithWrongInput, by simp [parseErc20SwapinTxInput, hlen], ?_, ?_⟩
    · simp [hlen]
    · intro h; omega
  · have hlen' : 4 ≤ input.length := by omega
    by_cases h1 : input.take 4 = transferFuncHash
    · have h2 : input.take 4 ≠ transferFromFuncHash := by rw [h1]; exact hne
      have hw := BytesToAddress_word _ (wordAt_length input 4)
      cases hm : EqualFold (Hex ((wordAt input 4).drop 12)) depositAddress with
      | true =>
        refine ⟨none, ?_, by simp [hlen], fun _ => ⟨by simp [h1], fun _ => by simp, ?_⟩⟩
        · simp only [parseErc20SwapinTxInput, hlen, if_false, h1, if_true,
            GetData_word input 4 (by decide), hw, hm, Bool.not_true, Bool.false_eq_true]
        · intro h; exact absurd h h2
      | false =>
        refine ⟨some .ErrTxWithWrongReceiver, ?_, by simp [hlen],
          fun _ => ⟨by simp [h1], fun _ => by simp, ?_⟩⟩
        · simp only [parseErc20SwapinTxInput, hlen, if_false, h1, if_true,
            GetData_word input 4 (by decide), hw, hm, Bool.not_false]
        · intro h; exact absurd h h2
    · by_cases h2 : input.take 4 = transferFromFuncHash
      · have hw := BytesToAddress_word _ (wordAt_length input 36)
        cases hm : EqualFold (Hex ((wordAt input 36).drop 12)) depositAddress with
        | true =>
          refine ⟨none, ?_, by simp [hlen], fun _ => ⟨by simp [h2], ?_, fun _ => by simp⟩⟩
          · simp only [parseErc20SwapinTxInput, hlen, if_false, h2, hne.symm, if_true,
              GetData_word input 36 (by decide), hw, hm, Bool.not_true, Bool.false_eq_true]
          · intro h; exact absurd h h1
        | false =>
          refine ⟨some .ErrTxWithWrongReceiver, ?_, by simp [hlen],
            fun _ => ⟨by simp [h2], ?_, fun _ => by simp⟩⟩
          · simp only [parseErc20SwapinTxInput, hlen, if_false, h2, hne.symm, if_true,
              GetData_word input 36 (by decide), hw, hm, Bool.not_false]
          · intro h; exact absurd h h1
      · refine ⟨some .ErrTxFuncHashMismatch, ?_, by simp [hlen],
          fun _ => ⟨by simp [h1, h2], fun h => absurd h h1, fun h => absurd h h2⟩⟩
        simp only [parseErc20SwapinTxInput, hlen, if_false, h1, h2]

/-- Instance of C9: the call-data of scenario S3 is at least 4 bytes long,
carries the `transfer` selector and names the bridge address. -/
theorem parseErc20SwapinTxInput_spec_witness :
    4 ≤ erc20DepositTx.Data.length ∧
    erc20DepositTx.Data.take 4 = transferFuncHash ∧
    EqualFold (Hex ((wordAt erc20DepositTx.Data 4).drop 12)) erc20Token.DepositAddress = true ∧
    parseErc20SwapinTxInput erc20DepositTx.Data erc20Token.DepositAddress
      zeroEvent =
      some (zeroEvent, none) :=
  ⟨by decide, by decide, by decide,
    let ⟨_, h, _, h4⟩ := parseErc20SwapinTxInput_spec erc20DepositTx.Data
      erc20Token.DepositAddress
      zeroEvent
    (((h4 (by decide)).2.1 (by decide)).1.mpr (by decide)) ▸ h⟩

/-- C10: for a destination-chain token, with a receipt supplied, a non-nil
`To` and a recovered sender `From`, `verifyTransaction` returns `(Null, nil,
nil)` when `To` differs from the effective contract, type Mint when `To`
equals the effective contract and `From` equals `DepositAddress`, and type
Burn when `To` equals the effective contract and `From` differs from
`DepositAddress`, whatever the call-data and the logs: the error of the mint
or burn log parser is returned beside the event and does not change the
type. -/
theorem verifyTransaction_dst (scanner : ethSwapScanner) (tx : Transaction) (r : Receipt)
    (tokenCfg : TokenConfig) (to_ txFrom : Address)
    (hdst : tokenCfg.IsSrcToken = false)
    (hto : tx.To = some to_) (hfrom : scanner.AsMessage tx = some txFrom) :
    verifyTransaction scanner tx (some r) tokenCfg =
      if EqualFold (Hex to_) (effectiveContract tokenCfg) then
        if EqualFold (Hex txFrom) tokenCfg.DepositAddress then
          some (.TypeMint,
            some { TxHash := tx.Hash
                   BlockTime := getBlockTimestamp scanner r.BlockNumber
                   BlockNumber := r.BlockNumber
                   Amount := none
                   User := zeroAddress },
            (parseMintTxLogs r.Logs tokenCfg
              { TxHash := tx.Hash
                BlockTime := getBlockTimestamp scanner r.BlockNumber
                BlockNumber := r.BlockNumber
                Amount := none
                User := zeroAddress }).2)
        else
          some (.TypeBurn,
            some { TxHash := tx.Hash
                   BlockTime := getBlockTimestamp scanner r.BlockNumber
                   BlockNumber := r.BlockNumber
                   Amount := none
                   User := zeroAddress },
            (parseSwapoutTxLogs r.Logs tokenCfg
              { TxHash := tx.Hash
                BlockTime := getBlockTimestamp scanner r.BlockNumber
                BlockNumber := r.BlockNumber
                Amount := none
                User := zeroAddress }).2)
      else some (.TypeNull, none, none) := by
  have hsw : ∀ cmp : String,
      verifySwitch scanner tx to_ txFrom cmp (some r) tokenCfg =
        if EqualFold (Hex to_) cmp then
          if EqualFold (Hex txFrom) tokenCfg.DepositAddress then
            some (.TypeMint,
              some { TxHash := tx.Hash
                     BlockTime := getBlockTimestamp scanner r.BlockNumber
                     BlockNumber := r.BlockNumber
                     Amount := none
                     User := zeroAddress },
              (parseMintTxLogs r.Logs tokenCfg
                { TxHash := tx.Hash
                  BlockTime := getBlockTimestamp scanner r.BlockNumber
                  BlockNumber := r.BlockNumber
                  Amount := none
                  User := zeroAddress }).2)
          else
            some (.TypeBurn,
              some { TxHash := tx.Hash
                     BlockTime := getBlockTimestamp scanner r.BlockNumber
                     BlockNumber := r.BlockNumber
                     Amount := none
                     User := zeroAddress },
              (parseSwapoutTxLogs r.Logs tokenCfg
                { TxHash := tx.Hash
                  BlockTime := getBlockTimestamp scanner r.BlockNumber
                  BlockNumber := r.BlockNumber
                  Amount := none
                  User := zeroAddress }).2)
        else some (.TypeNull, none, none) := by
    intro cmp
    generalize hsd : ({ TxHash := tx.Hash
                        BlockTime := getBlockTimestamp scanner r.BlockNumber
                        BlockNumber := r.BlockNumber
                        Amount := none
                        User := zeroAddress } : SwapEvent) = sd
    obtain ⟨hm1, hm2⟩ := parseMintTxLogs_result r.Logs tokenCfg sd
    obtain ⟨hb1, hb2⟩ := parseSwapoutTxLogs_result r.Logs tokenCfg sd
    have hm : parseMintTxLogs r.Logs tokenCfg sd =
        (sd, (parseMintTxLogs r.Logs tokenCfg sd).2) := Prod.ext hm1 rfl
    have hb : parseSwapoutTxLogs r.Logs tokenCfg sd =
        (sd, (parseSwapoutTxLogs r.Logs tokenCfg sd).2) := Prod.ext hb1 rfl
    have hbne : (parseSwapoutTxLogs r.Logs tokenCfg sd).2 ≠ some .ErrTxWithWrongReceiver := by
      rcases hb2 with h | h <;> rw [h] <;> simp
    generalize (parseMintTxLogs r.Logs tokenCfg sd).2 = em at hm
    generalize (parseSwapoutTxLogs r.Logs tokenCfg sd).2 = eb at hb hbne
    simp only [verifySwitch, hdst, Bool.false_eq_true, if_false, verifyMintTx, verifySwapoutTx,
      hsd, hm, hb, reduceCtorEq, hbne]
  unfold effectiveContract
  by_cases hc : tokenCfg.CallByContract ≠ ""
  · simp only [verifyTransaction, hto, hfrom]
    rw [if_pos hc, if_pos hc]
    exact hsw _
  · simp only [verifyTransaction, hto, hfrom]
    rw [if_neg hc, if_neg hc]
    exact hsw _

/-- Instance of C10: scenario S5, a mint sent by the bridge address and
evidenced by its `LogSwapin` log. -/
theorem verifyTransaction_dst_witness :
    (dstToken.IsSrcToken = false ∧ mintTx.To = some addrToken ∧
      (scannerOf addrDeposit true).AsMessage mintTx = some addrDeposit) ∧
    verifyTransaction (scannerOf addrDeposit true) mintTx (some (receiptOf [swapinLog]))
        dstToken =
      some (.TypeMint,
        some { TxHash := List.replicate 32 0x09, BlockTime := 1600000000,
               BlockNumber := some 5, Amount := none, User := zeroAddress }, none) :=
  ⟨⟨rfl, rfl, rfl⟩,
    (verifyTransaction_dst (scannerOf addrDeposit true) mintTx (receiptOf [swapinLog])
      dstToken addrToken addrDeposit rfl rfl rfl).trans (by decide)⟩

/-- With a receipt in hand the ERC-20 deposit verifier returns the result of
the log parser. -/
theorem verifyErc20SwapinTx_some (scanner : ethSwapScanner) (tx : Transaction) (r : Receipt)
    (tokenCfg : TokenConfig) :
    verifyErc20SwapinTx scanner tx (some r) tokenCfg =
      some (parseErc20SwapinTxLogs r.Logs tokenCfg
        { TxHash := tx.Hash
          BlockTime := getBlockTimestamp scanner r.BlockNumber
          BlockNumber := r.BlockNumber
          Amount := none
          User := zeroAddress }) := by
  simp [verifyErc20SwapinTx]

/-- With a receipt in hand the ERC-20 redeem verifier returns the result of
the log parser. -/
theorem verifyErc20RedeemTx_some (scanner : ethSwapScanner) (tx : Transaction) (r : Receipt)
    (tokenCfg : TokenConfig) :
    verifyErc20RedeemTx scanner tx (some r) tokenCfg =
      some (parseErc20RedeemTxLogs r.Logs tokenCfg
        { TxHash := tx.Hash
          BlockTime := getBlockTimestamp scanner r.BlockNumber
          BlockNumber := r.BlockNumber
          Amount := none
          User := zeroAddress }) := by
  simp [verifyErc20RedeemTx]

/-- With a receipt supplied `verifyTransaction` is its `switch` entered with
the effective contract. -/
theorem verifyTransaction_some_receipt (scanner : ethSwapScanner) (tx : Transaction)
    (r : Receipt) (tokenCfg : TokenConfig) (to_ txFrom : Address)
    (hto : tx.To = some to_) (hfrom : scanner.AsMessage tx = some txFrom) :
    verifyTransaction scanner tx (some r) tokenCfg =
      verifySwitch scanner tx to_ txFrom (effectiveContract tokenCfg) (some r) tokenCfg := by
  unfold effectiveContract
  by_cases hc : tokenCfg.CallByContract ≠ ""
  · simp only [verifyTransaction, hto, hfrom]
    rw [if_pos hc, if_pos hc]
  · simp only [verifyTransaction, hto, hfrom]
    rw [if_neg hc, if_neg hc]

/-- C11: for a source-chain non-native token, with a receipt supplied, a
non-nil `To` and a recovered sender `From`, `verifyTransaction` returns
`(Null, nil, nil)` when `To` differs from the effective contract; type
Redeemed with the event and the error of the redeem verifier when `To` equals
the effective contract and `From` equals `DepositAddress`; and type Deposit
with the event and the error of the deposit verifier when `To` equals the
effective contract, `From` differs from `DepositAddress` and that error is not
`ErrTxWithWrongReceiver`. -/
theorem verifyTransaction_erc20 (scanner : ethSwapScanner) (tx : Transaction) (r : Receipt)
    (tokenCfg : TokenConfig) (to_ txFrom : Address)
    (hsrc : tokenCfg.IsSrcToken = true) (hnative : tokenCfg.IsNativeToken = false)
    (hto : tx.To = some to_) (hfrom : scanner.AsMessage tx = some txFrom) :
    (EqualFold (Hex to_) (effectiveContract tokenCfg) = false →
      verifyTransaction scanner tx (some r) tokenCfg = some (.TypeNull, none, none)) ∧
    (EqualFold (Hex to_) (effectiveContract tokenCfg) = true →
      EqualFold (Hex txFrom) tokenCfg.DepositAddress = true →
      ∃ swapData verifyErr,
        verifyErc20RedeemTx scanner tx (some r) tokenCfg = some (swapData, verifyErr) ∧
        verifyTransaction scanner tx (some r) tokenCfg =
          some (.TypeRedeemed, some swapData, verifyErr)) ∧
    (EqualFold (Hex to_) (effectiveContract tokenCfg) = true →
      EqualFold (Hex txFrom) tokenCfg.DepositAddress = false →
      ∃ swapData verifyErr,
        verifyErc20SwapinTx scanner tx (some r) tokenCfg = some (swapData, verifyErr) ∧
        (verifyErr ≠ some .ErrTxWithWrongReceiver →
          verifyTransaction scanner tx (some r) tokenCfg =
            some (.TypeDeposit, some swapData, verifyErr))) := by
  rw [verifyTransaction_some_receipt scanner tx r tokenCfg to_ txFrom hto hfrom]
  refine ⟨?_, ?_, ?_⟩
  · intro hm
    simp [verifySwitch, hsrc, hnative, hm]
  · intro hm hu
    rw [verifyErc20RedeemTx_some]
    refine ⟨_, _, rfl, ?_⟩
    simp [verifySwitch, hsrc, hnative, hm, hu, verifyErc20RedeemTx_some]
  · intro hm hu
    rw [verifyErc20SwapinTx_some]
    refine ⟨_, _, rfl, ?_⟩
    intro hne
    simp [verifySwitch, hsrc, hnative, hm, hu, verifyErc20SwapinTx_some, hne]

/-- Instance of C11: an ERC-20 `Transfer` to the bridge address, seen through
its receipt, is a Deposit. -/
theorem verifyTransaction_erc20_witness :
    (erc20Token.IsSrcToken = true ∧ erc20Token.IsNativeToken = false ∧
      erc20DepositTx.To = some addrToken ∧
      (scannerOf addrUser true).AsMessage erc20DepositTx = some addrUser ∧
      EqualFold (Hex addrToken) (effectiveContract erc20Token) = true ∧
      EqualFold (Hex addrUser) erc20Token.DepositAddress = false) ∧
    ∃ swapData verifyErr,
      verifyErc20SwapinTx (scannerOf addrUser true) erc20DepositTx
        (some (receiptOf [transferLog addrDeposit (some [1])])) erc20Token =
        some (swapData, verifyErr) ∧
      (verifyErr ≠ some .ErrTxWithWrongReceiver →
        verifyTransaction (scannerOf addrUser true) erc20DepositTx
          (some (receiptOf [transferLog addrDeposit (some [1])])) erc20Token =
          some (.TypeDeposit, some swapData, verifyErr)) :=
  ⟨⟨rfl, rfl, rfl, rfl, by decide, by decide⟩,
    (verifyTransaction_erc20 (scannerOf addrUser true) erc20DepositTx
      (receiptOf [transferLog addrDeposit (some [1])]) erc20Token addrToken addrUser
      rfl rfl rfl rfl).2.2 (by decide) (by decide)⟩

/-! ## Hexadecimal round trip -/

theorem hexVal_hexDigit_fin : ∀ n : Fin 16, hexVal (hexDigit n.val) = some n.val := by decide

theorem hexVal_hexDigit (n : Nat) (h : n < 16) : hexVal (hexDigit n) = some n :=
  hexVal_hexDigit_fin ⟨n, h⟩

theorem hexEncode_cons (b : Byte) (bs : List Byte) :
    hexEncode (b :: bs) = hexDigit (b.val / 16) :: hexDigit (b.val % 16) :: hexEncode bs := by
  simp [hexEncode]

/-- Decoding the digits of a byte string gives the byte string back. -/
theorem Hex2Bytes_hexEncode (bs : List Byte) : Hex2Bytes (hexEncode bs) = bs := by
  induction bs with
  | nil => rfl
  | cons b bs ih =>
    have h1 : hexVal (hexDigit (b.val / 16)) = some (b.val / 16) :=
      hexVal_hexDigit _ (by omega)
    have h2 : hexVal (hexDigit (b.val % 16)) = some (b.val % 16) :=
      hexVal_hexDigit _ (by omega)
    have h3 : (Fin.ofNat (b.val / 16 * 16 + b.val % 16) : Fin 256) = b := by
      apply Fin.ext
      simp only [Fin.ofNat, Fin.val_mk]
      omega
    rw [hexEncode_cons, Hex2Bytes, h1, h2]
    simp only [h3]
    rw [ih]

theorem hexEncode_length (bs : List Byte) : (hexEncode bs).length = 2 * bs.length := by
  induction bs with
  | nil => rfl
  | cons b bs ih =>
    rw [hexEncode_cons]
    simp only [List.length_cons, ih]
    omega

/-- `FromHex` undoes `Hex`. -/
theorem FromHex_Hex (a : List Byte) : FromHex (Hex a) = a := by
  have hl := hexEncode_length a
  have hev : ¬ (hexEncode a).length % 2 = 1 := by omega
  simp only [FromHex, Hex, String.toList, hev, if_false]
  exact Hex2Bytes_hexEncode a

theorem BytesToAddress_length (b : List Byte) : (BytesToAddress b).length = 20 := by
  unfold BytesToAddress
  by_cases h : b.length > 20
  · simp only [h, if_true, List.length_append, List.length_replicate, List.length_drop]
    omega
  · simp only [h, if_false, List.length_append, List.length_replicate]
    omega

theorem BytesToAddress_of_length (a : List Byte) (h : a.length = 20) :
    BytesToAddress a = a := by
  simp [BytesToAddress, h]

/-- `HexToAddress(BytesToAddress(b).Hex())` is `BytesToAddress(b)`. -/
theorem HexToAddress_Hex_BytesToAddress (b : List Byte) :
    HexToAddress (Hex (BytesToAddress b)) = BytesToAddress b := by
  rw [HexToAddress, FromHex_Hex, BytesToAddress_of_length _ (BytesToAddress_length b)]

/-- The redeem log parser always ends with `ErrDepositLogNotFound`, and the
`User` it leaves is the address of `topic[2]` of the last log it looks at. -/
theorem parseErc20RedeemTxLogs_last (tokenCfg : TokenConfig) :
    ∀ (logs : List Log) (swapData : SwapEvent),
      parseErc20RedeemTxLogs logs tokenCfg swapData =
        ({ swapData with
            User := match (logs.filter (isTransferLogOf tokenCfg)).getLast? with
              | none => swapData.User
              | some rlog => BytesToAddress (rlog.Topics.getD 2 []) },
          some .ErrDepositLogNotFound) := by
  intro logs
  induction logs with
  | nil => intro swapData; simp [parseErc20RedeemTxLogs]
  | cons rlog rest ih =>
    intro swapData
    unfold parseErc20RedeemTxLogs
    by_cases h1 : rlog.Removed = true
    · have hp : isTransferLogOf tokenCfg rlog = false := by simp [isTransferLogOf, h1]
      rw [if_pos h1, ih, List.filter_cons_of_neg (by simp [hp])]
    · by_cases h2 : EqualFold (Hex rlog.Address) tokenCfg.TokenAddress = true
      · by_cases h3 : rlog.Topics.length = 3
        · by_cases h4 : rlog.Data = none
          · have hp : isTransferLogOf tokenCfg rlog = false := by
              simp [isTransferLogOf, h4]
            have h34 : rlog.Topics.length ≠ 3 ∨ rlog.Data = none := Or.inr h4
            have h2' : ¬ (!EqualFold (Hex rlog.Address) tokenCfg.TokenAddress) = true := by
              simp [h2]
            rw [if_neg h1, if_neg h2', if_pos h34, ih, List.filter_cons_of_neg (by simp [hp])]
          · have h4' : rlog.Data.isSome = true := by
              cases hd : rlog.Data with
              | none => exact absurd hd h4
              | some d => rfl
            have h34 : ¬ (rlog.Topics.length ≠ 3 ∨ rlog.Data = none) := by
              simp [h3, h4]
            have h2' : ¬ (!EqualFold (Hex rlog.Address) tokenCfg.TokenAddress) = true := by
              simp [h2]
            by_cases h5 : rlog.Topics.getD 0 [] = transferLogTopic
            · have hp : isTransferLogOf tokenCfg rlog = true := by
                simp [isTransferLogOf, h1, h2, h3, h4', h5, -List.getD_eq_getElem?_getD]
              rw [if_neg h1, if_neg h2', if_neg h34, if_pos h5, ih,
                List.filter_cons_of_pos hp, HexToAddress_Hex_BytesToAddress]
              cases hx : rest.filter (isTransferLogOf tokenCfg) with
              | nil => simp
              | cons y ys =>
                simp only [List.getLast?_cons_cons,
                  List.getLast?_eq_getLast _ (List.cons_ne_nil y ys)]
            · have hp : isTransferLogOf tokenCfg rlog = false := by
                simp [isTransferLogOf, h5, -List.getD_eq_getElem?_getD]
              rw [if_neg h1, if_neg h2', if_neg h34, if_neg h5, ih,
                List.filter_cons_of_neg (by simp [hp])]
        · have hp : isTransferLogOf tokenCfg rlog = false := by
            simp [isTransferLogOf, h3]
          have h34 : rlog.Topics.length ≠ 3 ∨ rlog.Data = none := Or.inl h3
          have h2' : ¬ (!EqualFold (Hex rlog.Address) tokenCfg.TokenAddress) = true := by
            simp [h2]
          rw [if_neg h1, if_neg h2', if_pos h34, ih, List.filter_cons_of_neg (by simp [hp])]
      · have hp : isTransferLogOf tokenCfg rlog = false := by
          simp [isTransferLogOf, h2]
        have h2' : (!EqualFold (Hex rlog.Address) tokenCfg.TokenAddress) = true := by
          simp [h2]
        rw [if_neg h1, if_pos h2', ih, List.filter_cons_of_neg (by simp [hp])]

/-- The third topic of a log that passed the `Transfer` filter is one of its
topics. -/
theorem isTransferLogOf_topic2 (tokenCfg : TokenConfig) (rlog : Log)
    (hp : isTransferLogOf tokenCfg rlog = true) : rlog.Topics.getD 2 [] ∈ rlog.Topics := by
  have hlen : rlog.Topics.length = 3 := by
    simp only [isTransferLogOf, Bool.and_eq_true, decide_eq_true_eq] at hp
    exact hp.1.1.2
  rw [List.getD_eq_getElem _ _ (by omega)]
  exact List.getElem_mem _

/-- C12: for every list of receipt logs (topics being 32-byte hashes),
`parseErc20RedeemTxLogs` returns `ErrDepositLogNotFound`, also when a matching
`Transfer` log is present; it sets `User` to the low 20 bytes of `topic[2]` of
the last log that is not removed, was emitted by `TokenAddress`, has 3 topics
and non-nil data and carries the `Transfer` topic first, changing no other
field, and returns the event unchanged when there is no such log. -/
theorem parseErc20RedeemTxLogs_spec (logs : List Log) (tokenCfg : TokenConfig)
    (swapData : SwapEvent)
    (hhash : ∀ rlog ∈ logs, ∀ t ∈ rlog.Topics, t.length = 32) :
    (parseErc20RedeemTxLogs logs tokenCfg swapData).2 = some .ErrDepositLogNotFound ∧
    (∀ rlog, (logs.filter (isTransferLogOf tokenCfg)).getLast? = some rlog →
      (parseErc20RedeemTxLogs logs tokenCfg swapData).1 =
        { swapData with User := (rlog.Topics.getD 2 []).drop 12 }) ∧
    ((∀ rlog ∈ logs, isTransferLogOf tokenCfg rlog = false) →
      (parseErc20RedeemTxLogs logs tokenCfg swapData).1 = swapData) := by
  rw [parseErc20RedeemTxLogs_last]
  refine ⟨rfl, ?_, ?_⟩
  · intro rlog hlast
    have hmemf : rlog ∈ logs.filter (isTransferLogOf tokenCfg) :=
      List.mem_of_getLast?_eq_some hlast
    obtain ⟨hmem, hp⟩ := List.mem_filter.mp hmemf
    have h32 := hhash rlog hmem _ (isTransferLogOf_topic2 tokenCfg rlog hp)
    simp only [hlast, BytesToAddress_word _ h32]
  · intro hall
    have hnil : logs.filter (isTransferLogOf tokenCfg) = [] := by
      rw [List.filter_eq_nil_iff]
      intro rlog hmem
      simp [hall rlog hmem]
    simp only [hnil, List.getLast?_nil]

/-- Instance of C12: one `Transfer` log of the token to `0xCAFE…02`; the
parser records that address as `User` and still returns
`ErrDepositLogNotFound`. -/
theorem parseErc20RedeemTxLogs_spec_witness :
    (∀ rlog ∈ [transferLog addrUser (some [1])], ∀ t ∈ rlog.Topics, t.length = 32) ∧
    ([transferLog addrUser (some [1])].filter (isTransferLogOf erc20Token)).getLast? =
      some (transferLog addrUser (some [1])) ∧
    (parseErc20RedeemTxLogs [transferLog addrUser (some [1])] erc20Token zeroEvent).2 =
      some .ErrDepositLogNotFound ∧
    (parseErc20RedeemTxLogs [transferLog addrUser (some [1])] erc20Token zeroEvent).1 =
      { zeroEvent with
        User := ((transferLog addrUser (some [1])).Topics.getD 2 []).drop 12 } :=
  ⟨by decide, by decide,
    (parseErc20RedeemTxLogs_spec [transferLog addrUser (some [1])] erc20Token zeroEvent
      (by decide)).1,
    (parseErc20RedeemTxLogs_spec [transferLog addrUser (some [1])] erc20Token zeroEvent
      (by decide)).2.1 _ (by decide)⟩

/-- The mint log parser accepts exactly when the list holds a log that passes
its filter. -/
theorem parseMintTxLogs_any (tokenCfg : TokenConfig) (swapData : SwapEvent) :
    ∀ logs : List Log,
      (parseMintTxLogs logs tokenCfg swapData).2 =
        if logs.any (isSwapinLogOf tokenCfg) then none else some .ErrSwapoutLogNotFound := by
  intro logs
  induction logs with
  | nil => simp [parseMintTxLogs]
  | cons rlog rest ih =>
    unfold parseMintTxLogs
    rw [List.any_cons]
    by_cases h1 : rlog.Removed = true
    · have hp : isSwapinLogOf tokenCfg rlog = false := by simp [isSwapinLogOf, h1]
      rw [if_pos h1, ih, hp, Bool.false_or]
    · have h1' : rlog.Removed = false := by simpa using h1
      by_cases h2 : EqualFold (Hex rlog.Address) tokenCfg.TokenAddress = true
      · have h2' : ¬ (!EqualFold (Hex rlog.Address) tokenCfg.TokenAddress) = true := by
          simp [h2]
        by_cases h3 : rlog.Topics.length = 2
        · by_cases h4 : rlog.Data = none
          · have hp : isSwapinLogOf tokenCfg rlog = false := by simp [isSwapinLogOf, h4]
            rw [if_neg h1, if_neg h2', if_pos (Or.inr h4), ih, hp, Bool.false_or]
          · have h4' : rlog.Data.isSome = true := by
              cases hd : rlog.Data with
              | none => exact absurd hd h4
              | some d => rfl
            have h34 : ¬ (rlog.Topics.length ≠ 2 ∨ rlog.Data = none) := by simp [h3, h4]
            by_cases h5 : rlog.Topics.getD 0 [] = swapinLogTopic
            · have hp : isSwapinLogOf tokenCfg rlog = true := by
                simp [isSwapinLogOf, h1', h2, h3, h4', h5, -List.getD_eq_getElem?_getD]
              rw [if_neg h1, if_neg h2', if_neg h34, if_pos h5, hp, Bool.true_or]
              rfl
            · have hp : isSwapinLogOf tokenCfg rlog = false := by
                simp [isSwapinLogOf, h5, -List.getD_eq_getElem?_getD]
              rw [if_neg h1, if_neg h2', if_neg h34, if_neg h5, ih, hp, Bool.false_or]
        · have hp : isSwapinLogOf tokenCfg rlog = false := by simp [isSwapinLogOf, h3]
          rw [if_neg h1, if_neg h2', if_pos (Or.inl h3), ih, hp, Bool.false_or]
      · have hp : isSwapinLogOf tokenCfg rlog = false := by simp [isSwapinLogOf, h2]
        have h2' : (!EqualFold (Hex rlog.Address) tokenCfg.TokenAddress) = true := by
          simp [h2]
        rw [if_neg h1, if_pos h2', ih, hp, Bool.false_or]

/-- C13 as stated fails: a `LogSwapin` log of the token whose `Data` is empty
but not nil is accepted, although no log of the list has non-empty data. The
guard of the source is `rlog.Data == nil`. -/
theorem parseMintTxLogs_emptyData_counterexample :
    (parseMintTxLogs [swapinLogWith (some [])] dstToken zeroEvent).2 = none ∧
    ¬ ∃ rlog ∈ [swapinLogWith (some [])],
      rlog.Removed = false ∧
      EqualFold (Hex rlog.Address) dstToken.TokenAddress = true ∧
      rlog.Topics.length = 2 ∧
      (∃ d, rlog.Data = some d ∧ d ≠ []) ∧
      rlog.Topics.getD 0 [] = swapinLogTopic := by
  refine ⟨by decide, ?_⟩
  rintro ⟨rlog, hmem, -, -, -, ⟨d, hd, hne⟩, -⟩
  rw [List.mem_singleton] at hmem
  subst hmem
  simp only [swapinLogWith, Option.some.injEq] at hd
  exact hne hd.symm

/-- C13 (amended): for every list of receipt logs, `parseMintTxLogs` returns
nil if and only if some log in the list is not removed, was emitted by
`TokenAddress`, has exactly 2 topics and non-nil data (empty data passes), and
has the `LogSwapin` topic first; otherwise it returns
`ErrSwapoutLogNotFound`. The event record is not modified. -/
theorem parseMintTxLogs_spec (logs : List Log) (tokenCfg : TokenConfig)
    (swapData : SwapEvent) :
    (parseMintTxLogs logs tokenCfg swapData).1 = swapData ∧
    ((parseMintTxLogs logs tokenCfg swapData).2 = none ↔
      ∃ rlog, rlog ∈ logs ∧ rlog.Removed = false ∧
        EqualFold (Hex rlog.Address) tokenCfg.TokenAddress = true ∧
        rlog.Topics.length = 2 ∧ rlog.Data ≠ none ∧
        rlog.Topics.getD 0 [] = swapinLogTopic) ∧
    ((parseMintTxLogs logs tokenCfg swapData).2 = none ∨
      (parseMintTxLogs logs tokenCfg swapData).2 = some .ErrSwapoutLogNotFound) := by
  refine ⟨(parseMintTxLogs_result logs tokenCfg swapData).1, ?_,
    (parseMintTxLogs_result logs tokenCfg swapData).2⟩
  rw [parseMintTxLogs_any]
  have hiff : logs.any (isSwapinLogOf tokenCfg) = true ↔
      ∃ rlog, rlog ∈ logs ∧ rlog.Removed = false ∧
        EqualFold (Hex rlog.Address) tokenCfg.TokenAddress = true ∧
        rlog.Topics.length = 2 ∧ rlog.Data ≠ none ∧
        rlog.Topics.getD 0 [] = swapinLogTopic := by
    rw [List.any_eq_true]
    constructor
    · rintro ⟨rlog, hmem, hp⟩
      simp only [isSwapinLogOf, Bool.and_eq_true, decide_eq_true_eq, Bool.not_eq_true',
        Option.isSome_iff_ne_none] at hp
      exact ⟨rlog, hmem, hp.1.1.1.1, hp.1.1.1.2, hp.1.1.2, hp.1.2, hp.2⟩
    · rintro ⟨rlog, hmem, h1, h2, h3, h4, h5⟩
      refine ⟨rlog, hmem, ?_⟩
      simp only [isSwapinLogOf, Bool.and_eq_true, decide_eq_true_eq, Bool.not_eq_true',
        Option.isSome_iff_ne_none]
      exact ⟨⟨⟨⟨h1, h2⟩, h3⟩, h4⟩, h5⟩
  rw [← hiff]
  cases logs.any (isSwapinLogOf tokenCfg) <;> simp

/-- The deposit call-data parser does not panic and returns the event it was
given. -/
theorem parseErc20SwapinTxInput_event (input : List Byte) (depositAddress : String)
    (swapData : SwapEvent) :
    ∃ e, parseErc20SwapinTxInput input depositAddress swapData = some (swapData, e) := by
  simp only [parseErc20SwapinTxInput, GetData_word input 4 (by decide),
    GetData_word input 36 (by decide)]
  split
  · exact ⟨_, rfl⟩
  · split
    · split <;> exact ⟨_, rfl⟩
    · split
      · split <;> exact ⟨_, rfl⟩
      · exact ⟨_, rfl⟩

/-- C14: for every transaction, receipt and token, the event returned by
`verifyErc20SwapinTx`, `verifyMintTx` and `verifySwapoutTx` has `TxHash` the
hash of the transaction, `BlockNumber` the block number of the receipt,
`BlockTime` the result of `getBlockTimestamp` for that block number (the
header time when the lookup succeeds), a nil `Amount` and the zero address as
`User`, whatever the logs hold; the deposit, mint and burn parsers, on logs and
on call-data, return the event they were given. -/
theorem verify_event_unfilled (scanner : ethSwapScanner) (tx : Transaction) (r : Receipt)
    (tokenCfg : TokenConfig) (swapData : SwapEvent) :
    (∃ e1 e2 e3,
      verifyErc20SwapinTx scanner tx (some r) tokenCfg =
        some ({ TxHash := tx.Hash
                BlockTime := getBlockTimestamp scanner r.BlockNumber
                BlockNumber := r.BlockNumber
                Amount := none
                User := zeroAddress }, e1) ∧
      verifyMintTx scanner tx (some r) tokenCfg =
        some ({ TxHash := tx.Hash
                BlockTime := getBlockTimestamp scanner r.BlockNumber
                BlockNumber := r.BlockNumber
                Amount := none
                User := zeroAddress }, e2) ∧
      verifySwapoutTx scanner tx (some r) tokenCfg =
        some ({ TxHash := tx.Hash
                BlockTime := getBlockTimestamp scanner r.BlockNumber
                BlockNumber := r.BlockNumber
                Amount := none
                User := zeroAddress }, e3)) ∧
    (∀ time, scanner.HeaderByNumber r.BlockNumber = some time → time < 2 ^ 63 →
      getBlockTimestamp scanner r.BlockNumber = time) ∧
    (parseErc20SwapinTxLogs r.Logs tokenCfg swapData).1 = swapData ∧
    (parseMintTxLogs r.Logs tokenCfg swapData).1 = swapData ∧
    (parseSwapoutTxLogs r.Logs tokenCfg swapData).1 = swapData ∧
    (∃ e, parseErc20SwapinTxInput tx.Data tokenCfg.DepositAddress swapData =
      some (swapData, e)) ∧
    (parseMintTxInput tx.Data swapData).1 = swapData ∧
    (parseSwapoutTxInput tx.Data swapData).1 = swapData := by
  have hd : ∀ sd, (parseErc20SwapinTxLogs r.Logs tokenCfg sd).1 = sd := by
    intro sd; rw [parseErc20SwapinTxLogs_find]
  have hm : ∀ sd, (parseMintTxLogs r.Logs tokenCfg sd).1 = sd :=
    fun sd => (parseMintTxLogs_result r.Logs tokenCfg sd).1
  have hb : ∀ sd, (parseSwapoutTxLogs r.Logs tokenCfg sd).1 = sd :=
    fun sd => (parseSwapoutTxLogs_result r.Logs tokenCfg sd).1
  have h1 : verifyErc20SwapinTx scanner tx (some r) tokenCfg =
      some ({ TxHash := tx.Hash
              BlockTime := getBlockTimestamp scanner r.BlockNumber
              BlockNumber := r.BlockNumber
              Amount := none
              User := zeroAddress },
        (parseErc20SwapinTxLogs r.Logs tokenCfg
          { TxHash := tx.Hash
            BlockTime := getBlockTimestamp scanner r.BlockNumber
            BlockNumber := r.BlockNumber
            Amount := none
            User := zeroAddress }).2) := by
    rw [verifyErc20SwapinTx_some]
    exact congrArg some (Prod.ext (hd _) rfl)
  have h2 : verifyMintTx scanner tx (some r) tokenCfg =
      some ({ TxHash := tx.Hash
              BlockTime := getBlockTimestamp scanner r.BlockNumber
              BlockNumber := r.BlockNumber
              Amount := none
              User := zeroAddress },
        (parseMintTxLogs r.Logs tokenCfg
          { TxHash := tx.Hash
            BlockTime := getBlockTimestamp scanner r.BlockNumber
            BlockNumber := r.BlockNumber
            Amount := none
            User := zeroAddress }).2) := by
    have : verifyMintTx scanner tx (some r) tokenCfg = some (parseMintTxLogs r.Logs tokenCfg
        { TxHash := tx.Hash
          BlockTime := getBlockTimestamp scanner r.BlockNumber
          BlockNumber := r.BlockNumber
          Amount := none
          User := zeroAddress }) := by simp [verifyMintTx]
    rw [this]
    exact congrArg some (Prod.ext (hm _) rfl)
  have h3 : verifySwapoutTx scanner tx (some r) tokenCfg =
      some ({ TxHash := tx.Hash
              BlockTime := getBlockTimestamp scanner r.BlockNumber
              BlockNumber := r.BlockNumber
              Amount := none
              User := zeroAddress },
        (parseSwapoutTxLogs r.Logs tokenCfg
          { TxHash := tx.Hash
            BlockTime := getBlockTimestamp scanner r.BlockNumber
            BlockNumber := r.BlockNumber
            Amount := none
            User := zeroAddress }).2) := by
    have : verifySwapoutTx scanner tx (some r) tokenCfg =
        some (parseSwapoutTxLogs r.Logs tokenCfg
        { TxHash := tx.Hash
          BlockTime := getBlockTimestamp scanner r.BlockNumber
          BlockNumber := r.BlockNumber
          Amount := none
          User := zeroAddress }) := by simp [verifySwapoutTx]
    rw [this]
    exact congrArg some (Prod.ext (hb _) rfl)
  refine ⟨⟨_, _, _, h1, h2, h3⟩, ?_, hd _, hm _, hb _, ?_, ?_, ?_⟩
  · intro time ht hlt
    simp only [getBlockTimestamp, ht]
    exact wrapInt64_of_lt time hlt
  · exact parseErc20SwapinTxInput_event tx.Data tokenCfg.DepositAddress swapData
  · unfold parseMintTxInput
    split
    · rfl
    · dsimp only
      split <;> rfl
  · unfold parseSwapoutTxInput
    split
    · rfl
    · dsimp only
      split <;> rfl

/-- Instance of C14: the header lookup of the example scanner succeeds with
the time 1600000000, which becomes the `BlockTime`. -/
theorem verify_event_unfilled_witness :
    ((scannerOf addrUser true).HeaderByNumber (receiptOf []).BlockNumber = some 1600000000 ∧
      1600000000 < 2 ^ 63) ∧
    getBlockTimestamp (scannerOf addrUser true) (receiptOf []).BlockNumber =
      ((1600000000 : Nat) : Int) :=
  ⟨⟨rfl, by decide⟩,
    (verify_event_unfilled (scannerOf addrUser true) erc20DepositTx (receiptOf []) erc20Token
      zeroEvent).2.1 1600000000 rfl (by decide)⟩

/-! ## Properties of `run` and `scanLoop` -/

/-- C15: in `run`, with the window end resolved, `doScanRangeJob` is not
called when `startHeightArgument` is 0; it is called with start
`startHeightArgument` when that is positive, and with start
`windowEnd - |startHeightArgument|` when it is negative and
`|startHeightArgument| ≤ windowEnd` (`-1` and `10` give `9`); in both cases the
range end is `windowEnd`. -/
theorem runRange_spec (startHeightArgument : Int) (wend : Nat)
    (hmin : -(2 : Int) ^ 63 ≤ startHeightArgument) (hmax : startHeightArgument < (2 : Int) ^ 63)
    (hw : wend < u64) :
    (startHeightArgument = 0 → runRange startHeightArgument wend = none) ∧
    (0 < startHeightArgument →
      runRange startHeightArgument wend = some (startHeightArgument.toNat, wend)) ∧
    (startHeightArgument < 0 → startHeightArgument.natAbs ≤ wend →
      runRange startHeightArgument wend = some (wend - startHeightArgument.natAbs, wend)) ∧
    runRange (-1) 10 = some (9, 10) := by
  have hmin' : -9223372036854775808 ≤ startHeightArgument := by simpa using hmin
  have hmax' : startHeightArgument < 9223372036854775808 := by simpa using hmax
  have hw' : wend < 18446744073709551616 := by simpa [u64] using hw
  refine ⟨?_, ?_, ?_, by decide⟩
  · intro h
    simp [runRange, h]
  · intro h
    have hne : startHeightArgument ≠ 0 := by omega
    have hconv : toUint64 startHeightArgument = startHeightArgument.toNat := by
      unfold toUint64
      omega
    simp only [runRange, hne, ne_eq, not_false_eq_true, if_true, gt_iff_lt, h, hconv]
  · intro h habs
    have hne : startHeightArgument ≠ 0 := by omega
    have hnp : ¬ startHeightArgument > 0 := by omega
    have hconv : toUint64 (wrapInt64 (-startHeightArgument)) = startHeightArgument.natAbs := by
      unfold toUint64 wrapInt64
      omega
    have hsub : sub64 wend startHeightArgument.natAbs = wend - startHeightArgument.natAbs :=
      sub64_of_le habs hw
    simp only [runRange, hne, ne_eq, not_false_eq_true, if_true, hnp, if_false, h, hconv, hsub]

/-- Instance of C15: `startHeightArgument = -200` (the default of the flag)
with the window end 1000 gives the range `[800, 1000)`. -/
theorem runRange_spec_witness :
    (-(2 : Int) ^ 63 ≤ -200 ∧ (-200 : Int) < (2 : Int) ^ 63 ∧ 1000 < u64 ∧
      (-200 : Int) < 0 ∧ (-200 : Int).natAbs ≤ 1000) ∧
    runRange (-200) 1000 = some (1000 - (-200 : Int).natAbs, 1000) :=
  ⟨⟨by decide, by decide, by decide, by decide, by decide⟩,
    (runRange_spec (-200) 1000 (by decide) (by decide) (by decide)).2.2.1
      (by decide) (by decide)⟩

/-- With `latest` the largest `uint64` the condition `h <= latest` never
fails, so the loop does not end, whatever the fuel. -/
theorem scanLoopHeights_max : ∀ (fuel h : Nat), scanLoopHeights (u64 - 1) fuel h = none ∨
    u64 ≤ h
  | 0, _ => Or.inl rfl
  | fuel + 1, h => by
    by_cases hh : h < u64
    · left
      have hle : h ≤ u64 - 1 := by omega
      have hnext : ¬ u64 ≤ add64 h 1 := by
        have : add64 h 1 < u64 := Nat.mod_lt _ (by decide)
        omega
      rcases scanLoopHeights_max fuel (add64 h 1) with h1 | h1
      · simp only [scanLoopHeights, hle, if_true, h1]
      · exact absurd h1 hnext
    · right; omega

/-- Below the largest `uint64` the loop ends after visiting the `n` heights
from `h` up to `latest`, given fuel for its `n + 1` tests. -/
theorem scanLoopHeights_eq (latest : Nat) (hlatest : latest < u64 - 1) :
    ∀ (n h fuel : Nat), h + n = latest + 1 → n + 1 ≤ fuel →
      scanLoopHeights latest fuel h = some (List.range' h n)
  | 0, h, fuel, hn, hf => by
    obtain ⟨f, rfl⟩ : ∃ f, fuel = f + 1 := ⟨fuel - 1, by omega⟩
    have : ¬ h ≤ latest := by omega
    simp [scanLoopHeights, this]
  | n + 1, h, fuel, hn, hf => by
    obtain ⟨f, rfl⟩ : ∃ f, fuel = f + 1 := ⟨fuel - 1, by omega⟩
    have hle : h ≤ latest := by omega
    have hadd : add64 h 1 = h + 1 := add64_of_lt (by omega)
    have ih := scanLoopHeights_eq latest hlatest n (h + 1) f (by omega) (by omega)
    simp only [scanLoopHeights, hle, if_true, hadd, ih, List.range'_succ]

/-- C16 as stated fails: with `latest = 2^64 - 1` (and `from = 0`,
`stableHeight = 0`) the condition `h <= latest` holds for every `uint64`, the
counter wraps around and the pass never ends. -/
theorem scanLoopPass_maxLatest_counterexample :
    0 + 0 < u64 ∧ ¬ ∃ fuel res, scanLoopPass 0 fuel 0 (u64 - 1) = some res := by
  refine ⟨by decide, ?_⟩
  rintro ⟨fuel, res, h⟩
  rcases scanLoopHeights_max fuel 0 with h1 | h1
  · simp [scanLoopPass, h1] at h
  · exact absurd h1 (by decide)

/-- C16 (amended): for every `from`, `latest` and `stableHeight` with
`from + stableHeight < 2^64` and `latest < 2^64 - 1`, one pass of `scanLoop`
ends (given fuel for its loop tests), visits exactly the heights
`from, ..., latest` in ascending order (none when `from > latest`), and sets
`from` to `max(from, latest - stableHeight)`, the subtraction being 0 when
`stableHeight > latest`; so `from` does not decrease and the update does not
underflow. -/
theorem scanLoopPass_spec (stable from_ latest fuel : Nat)
    (hsum : from_ + stable < u64) (hlatest : latest < u64 - 1)
    (hfuel : latest + 2 ≤ fuel + from_) (hfuel1 : 1 ≤ fuel) :
    scanLoopPass stable fuel from_ latest =
      some (List.range' from_ (latest + 1 - from_), max from_ (latest - stable)) ∧
    from_ ≤ max from_ (latest - stable) := by
  have hheights : scanLoopHeights latest fuel from_ =
      some (List.range' from_ (latest + 1 - from_)) := by
    by_cases hle : from_ ≤ latest + 1
    · exact scanLoopHeights_eq latest hlatest (latest + 1 - from_) from_ fuel (by omega)
        (by omega)
    · obtain ⟨f, rfl⟩ : ∃ f, fuel = f + 1 := ⟨fuel - 1, by omega⟩
      have h1 : ¬ from_ ≤ latest := by omega
      have h2 : latest + 1 - from_ = 0 := by omega
      simp [scanLoopHeights, h1, h2]
  have hadd : add64 from_ stable = from_ + stable := add64_of_lt hsum
  refine ⟨?_, Nat.le_max_left _ _⟩
  simp only [scanLoopPass, hheights, hadd]
  by_cases hlt : from_ + stable < latest
  · have hsub : sub64 latest stable = latest - stable := sub64_of_le (by omega) (by omega)
    have hmax : max from_ (latest - stable) = latest - stable := Nat.max_eq_right (by omega)
    simp only [hlt, if_true, hsub, hmax]
  · have hmax : max from_ (latest - stable) = from_ := Nat.max_eq_left (by omega)
    simp only [hlt, if_false, hmax]

/-- Instance of C16 (amended): from 5 with the tip at 9 and a stable depth of
2, the pass visits 5..9 and moves `from` to 7. -/
theorem scanLoopPass_spec_witness :
    (5 + 2 < u64 ∧ 9 < u64 - 1 ∧ 9 + 2 ≤ 6 + 5 ∧ 1 ≤ 6) ∧
    scanLoopPass 2 6 5 9 = some (List.range' 5 (9 + 1 - 5), max 5 (9 - 2)) ∧
    5 ≤ max 5 (9 - 2) :=
  ⟨⟨by decide, by decide, by decide, by decide⟩,
    scanLoopPass_spec 2 5 9 6 (by decide) (by decide) (by decide) (by decide)⟩

/-! ## Properties of `scanBlock` -/

/-- After an insertion into a well-formed cache the inserted hash is
found. -/
theorem CacheHolds_addBlock_isScanned (cache : cachedSacnnedBlocks) (hist : List String)
    (x : String) (hc : CacheHolds cache hist) :
    ∃ cache1, cache.addBlock x = some cache1 ∧ cache1.isScanned x = true := by
  have hhist : 100 ≤ hist.length := by
    obtain ⟨_, newer, older, _, hd, _, _, hlen⟩ := hc
    have := congrArg List.length hd
    simp only [List.length_drop, List.length_append] at this
    omega
  obtain ⟨cache1, h1, hc1⟩ := CacheHolds_addBlock cache hist x hc
  refine ⟨cache1, h1, ?_⟩
  rw [CacheHolds_isScanned cache1 _ x hc1]
  have hk : (hist ++ [x]).length - 100 ≤ hist.length := by
    simp only [List.length_append, List.length_singleton]; omega
  rw [List.drop_append_of_le_length hk]
  simp

/-- The transaction loop passes at most all transactions of the block to
`scanTransaction`, and all of them when the timer never fires. -/
theorem scanTxs_scanned (scanner : ethSwapScanner) (tokens : List TokenConfig)
    (fired : Nat → Bool) :
    ∀ (txs : List Transaction) (i : Nat) (calls : List DbCall) (n : Nat),
      scanTxs scanner tokens fired i txs = some (calls, n) →
      n ≤ txs.length ∧ ((∀ j, fired j = false) → n = txs.length)
  | [], i, calls, n, h => by
    simp only [scanTxs, Option.some.injEq, Prod.mk.injEq] at h
    simp [← h.2]
  | tx :: rest, i, calls, n, h => by
    unfold scanTxs at h
    by_cases hf : fired i = true
    · simp only [hf, if_true, Option.some.injEq, Prod.mk.injEq] at h
      refine ⟨by omega, fun hall => ?_⟩
      rw [hall i] at hf
      exact absurd hf (by decide)
    · simp only [hf, if_false] at h
      cases h1 : scanTransaction scanner tokens tx with
      | none => simp [h1] at h
      | some cs =>
        cases h2 : scanTxs scanner tokens fired (i + 1) rest with
        | none => simp [h1, h2] at h
        | some p =>
          obtain ⟨more, m⟩ := p
          simp only [h1, h2, Option.some.injEq, Prod.mk.injEq] at h
          obtain ⟨_, hn⟩ := h
          obtain ⟨ih1, ih2⟩ := scanTxs_scanned scanner tokens fired rest (i + 1) more m h2
          refine ⟨by simp only [List.length_cons]; omega, fun hall => ?_⟩
          have := ih2 hall
          simp only [List.length_cons]
          omega

/-- C17 as stated fails: in tail mode, when the timer fires before the first
transaction of a block, no transaction is passed to `scanTransaction` and yet
the hash of the block is inserted into the cache; `break SCANTXS` leaves the
loop and falls through to `cachedBlocks.addBlock(blockHash)`. -/
theorem scanBlock_timeout_counterexample :
    (viewOf [creationTx] true).loopGetBlock 7 =
      some { Hash := List.replicate 32 0x0c, Transactions := [creationTx] } ∧
    cachedBlocks.isScanned (Hex (List.replicate 32 0x0c)) = false ∧
    ∃ res, scanBlock (scannerOf addrUser false) [] (viewOf [creationTx] true)
        cachedBlocks 0 7 true = some res ∧
      res.scanned = 0 ∧ res.calls = [] ∧
      res.cache.isScanned (Hex (List.replicate 32 0x0c)) = true := by
  refine ⟨rfl, by decide, _, rfl, ?_, ?_, ?_⟩ <;> decide

/-- C17 (amended): in tail mode (`cache = true`), on a well-formed cache and
with the job's timer in range, `scanBlock` leaves the cache unchanged and makes
no persistence call when the block cannot be fetched or its hash is already in
the cache; otherwise, once the transaction loop has ended, it inserts the hash
of the block, whether every transaction was passed to `scanTransaction` (which
is the case when the timer never fires) or the timer fired and the remaining
ones were abandoned. A block with zero transactions makes no persistence call
and its hash is inserted. -/
theorem scanBlock_cache (scanner : ethSwapScanner) (tokens : List TokenConfig)
    (view : ChainView) (cache : cachedSacnnedBlocks) (hist : List String) (job height : Nat)
    (hc : CacheHolds cache hist) (hjob : job < view.timers) :
    (view.loopGetBlock height = none →
      scanBlock scanner tokens view cache job height true =
        some { cache := cache, calls := [], scanned := 0 }) ∧
    (∀ block, view.loopGetBlock height = some block →
      cache.isScanned (Hex block.Hash) = true →
      scanBlock scanner tokens view cache job height true =
        some { cache := cache, calls := [], scanned := 0 }) ∧
    (∀ block calls n, view.loopGetBlock height = some block →
      cache.isScanned (Hex block.Hash) = false →
      scanTxs scanner tokens (view.timerFired job height) 0 block.Transactions =
        some (calls, n) →
      n ≤ block.Transactions.length ∧
      ((∀ i, view.timerFired job height i = false) → n = block.Transactions.length) ∧
      ∃ cache1, cache.addBlock (Hex block.Hash) = some cache1 ∧
        cache1.isScanned (Hex block.Hash) = true ∧
        scanBlock scanner tokens view cache job height true =
          some { cache := cache1, calls := calls, scanned := n }) ∧
    (∀ block, view.loopGetBlock height = some block →
      cache.isScanned (Hex block.Hash) = false → block.Transactions = [] →
      ∃ cache1, cache.addBlock (Hex block.Hash) = some cache1 ∧
        cache1.isScanned (Hex block.Hash) = true ∧
        scanBlock scanner tokens view cache job height true =
          some { cache := cache1, calls := [], scanned := 0 }) := by
  have hjob' : ¬ job ≥ view.timers := by omega
  have hmain : ∀ block calls n, view.loopGetBlock height = some block →
      cache.isScanned (Hex block.Hash) = false →
      scanTxs scanner tokens (view.timerFired job height) 0 block.Transactions =
        some (calls, n) →
      ∃ cache1, cache.addBlock (Hex block.Hash) = some cache1 ∧
        cache1.isScanned (Hex block.Hash) = true ∧
        scanBlock scanner tokens view cache job height true =
          some { cache := cache1, calls := calls, scanned := n } := by
    intro block calls n hb hs ht
    obtain ⟨cache1, h1, h2⟩ := CacheHolds_addBlock_isScanned cache hist (Hex block.Hash) hc
    refine ⟨cache1, h1, h2, ?_⟩
    simp [scanBlock, hb, hs, hjob', ht, h1]
  refine ⟨?_, ?_, ?_, ?_⟩
  · intro hb
    simp [scanBlock, hb]
  · intro block hb hs
    simp [scanBlock, hb, hs]
  · intro block calls n hb hs ht
    obtain ⟨h1, h2⟩ := scanTxs_scanned scanner tokens _ _ _ _ _ ht
    exact ⟨h1, h2, hmain block calls n hb hs ht⟩
  · intro block hb hs htx
    exact hmain block [] 0 hb hs (by rw [htx]; rfl)

/-- Instance of C17 (amended): a block with zero transactions scanned on the
initial cache. -/
theorem scanBlock_cache_witness :
    (CacheHolds cachedBlocks (List.replicate 100 "") ∧ 0 < (viewOf [] false).timers ∧
      (viewOf [] false).loopGetBlock 7 =
        some { Hash := List.replicate 32 0x0c, Transactions := [] } ∧
      cachedBlocks.isScanned (Hex (List.replicate 32 0x0c)) = false) ∧
    ∃ cache1, cachedBlocks.addBlock (Hex (List.replicate 32 0x0c)) = some cache1 ∧
      cache1.isScanned (Hex (List.replicate 32 0x0c)) = true ∧
      scanBlock (scannerOf addrUser false) [] (viewOf [] false) cachedBlocks 0 7 true =
        some { cache := cache1, calls := [], scanned := 0 } :=
  ⟨⟨CacheHolds_init, by decide, rfl, by decide⟩,
    (scanBlock_cache (scannerOf addrUser false) [] (viewOf [] false) cachedBlocks
      (List.replicate 100 "") 0 7 CacheHolds_init (by decide)).2.2.2
      { Hash := List.replicate 32 0x0c, Transactions := [] } rfl (by decide) rfl⟩

/-- C18: the predicate `capacity = 100, len(hashes) = capacity and
0 ≤ nextIndex < capacity` holds of the initial cache and is preserved by
`addBlock`; under it `addBlock` does not index out of range, writes the new
hash into slot `nextIndex` and leaves every other slot and the capacity as
they were, and sets `nextIndex` to `(nextIndex + 1) mod capacity`. `isScanned`
only reads: its answer is membership of the hash in the slots (in the model it
is a function of the cache, which it cannot modify). -/
theorem addBlock_invariant (cache : cachedSacnnedBlocks) (blockHash : String)
    (hinv : CacheInv cache) :
    CacheInv cachedBlocks ∧
    (∃ cache1, cache.addBlock blockHash = some cache1 ∧
      CacheInv cache1 ∧
      cache1.capacity = cache.capacity ∧
      cache1.hashes.length = cache.hashes.length ∧
      cache1.hashes[cache.nextIndex.toNat]? = some blockHash ∧
      (∀ j, j ≠ cache.nextIndex.toNat → cache1.hashes[j]? = cache.hashes[j]?) ∧
      cache1.nextIndex = (cache.nextIndex + 1) % cache.capacity) ∧
    (∀ h, cache.isScanned h = true ↔ h ∈ cache.hashes) := by
  obtain ⟨hcap, hlen, h0, hlt⟩ := hinv
  refine ⟨?_, ?_, ?_⟩
  · refine ⟨rfl, ?_, ?_, ?_⟩ <;> simp [cachedBlocks]
  · have hidx : 0 ≤ cache.nextIndex ∧ cache.nextIndex < (cache.hashes.length : Int) := by
      omega
    have hcap0 : cache.capacity ≠ 0 := by omega
    have hwrap : wrapInt64 (cache.nextIndex + 1) = cache.nextIndex + 1 := by
      unfold wrapInt64; omega
    have hmod : Int.tmod (cache.nextIndex + 1) cache.capacity =
        (cache.nextIndex + 1) % cache.capacity :=
      Int.tmod_eq_emod (by omega) (by omega)
    have hadd : cache.addBlock blockHash = some
        { capacity := cache.capacity
          nextIndex := Int.tmod (wrapInt64 (cache.nextIndex + 1)) cache.capacity
          hashes := cache.hashes.set cache.nextIndex.toNat blockHash } := by
      simp only [cachedSacnnedBlocks.addBlock, hidx, hcap0, and_self, if_true, if_false]
    have hnat : cache.nextIndex.toNat < cache.hashes.length := by omega
    refine ⟨_, hadd, ?_, rfl, ?_, ?_, ?_, ?_⟩
    · refine ⟨hcap, ?_, ?_, ?_⟩
      · simp only [List.length_set]; exact hlen
      · simp only [hwrap, hmod]; rw [hcap]; omega
      · simp only [hwrap, hmod]; rw [hcap]; omega
    · simp only [List.length_set]
    · simp only [List.getElem?_set_self hnat]
    · intro j hj
      simp only [List.getElem?_set_ne (Ne.symm hj)]
    · simp only [hwrap, hmod]
  · intro h
    simp only [cachedSacnnedBlocks.isScanned, List.any_eq_true, beq_iff_eq]
    constructor
    · rintro ⟨b, hb, rfl⟩; exact hb
    · intro hb; exact ⟨h, hb, rfl⟩

/-- Instance of C18: the first insertion into the initial cache writes slot 0
and moves the next index to 1. -/
theorem addBlock_invariant_witness :
    CacheInv cachedBlocks ∧
    ∃ cache1, cachedBlocks.addBlock "0xab" = some cache1 ∧
      CacheInv cache1 ∧
      cache1.capacity = cachedBlocks.capacity ∧
      cache1.hashes.length = cachedBlocks.hashes.length ∧
      cache1.hashes[cachedBlocks.nextIndex.toNat]? = some "0xab" ∧
      (∀ j, j ≠ cachedBlocks.nextIndex.toNat → cache1.hashes[j]? = cachedBlocks.hashes[j]?) ∧
      cache1.nextIndex = (cachedBlocks.nextIndex + 1) % cachedBlocks.capacity :=
  ⟨(addBlock_invariant cachedBlocks "0xab" ⟨rfl, by decide, by decide, by decide⟩).1,
    (addBlock_invariant cachedBlocks "0xab" ⟨rfl, by decide, by decide, by decide⟩).2.1⟩

/-- C19: for call-data of at least 4 bytes with the `transfer` or the
`transferFrom` selector, and every `depositAddress`, `parseErc20RedeemTxInput`
returns nil and sets `User` to the low 20 bytes of the zero-padded word at
`[4, 36)` (transfer) or `[36, 68)` (transferFrom), changing no other field;
the result does not depend on `depositAddress`. Call-data shorter than 4 bytes
gives `ErrTxWithWrongInput` and any other selector `ErrTxFuncHashMismatch`,
the event being returned unchanged. -/
theorem parseErc20RedeemTxInput_spec (input : List Byte) (depositAddress other : String)
    (swapData : SwapEvent) :
    (input.length < 4 →
      parseErc20RedeemTxInput input depositAddress swapData =
        some (swapData, some .ErrTxWithWrongInput)) ∧
    (4 ≤ input.length → input.take 4 = transferFuncHash →
      parseErc20RedeemTxInput input depositAddress swapData =
        some ({ swapData with User := (wordAt input 4).drop 12 }, none)) ∧
    (4 ≤ input.length → input.take 4 = transferFromFuncHash →
      parseErc20RedeemTxInput input depositAddress swapData =
        some ({ swapData with User := (wordAt input 36).drop 12 }, none)) ∧
    (4 ≤ input.length → input.take 4 ≠ transferFuncHash →
      input.take 4 ≠ transferFromFuncHash →
      parseErc20RedeemTxInput input depositAddress swapData =
        some (swapData, some .ErrTxFuncHashMismatch)) ∧
    parseErc20RedeemTxInput input depositAddress swapData =
      parseErc20RedeemTxInput input other swapData := by
  have hne : transferFromFuncHash ≠ transferFuncHash := by decide
  refine ⟨?_, ?_, ?_, ?_, rfl⟩
  · intro hlen
    simp [parseErc20RedeemTxInput, hlen]
  · intro hlen h1
    have hlen' : ¬ input.length < 4 := by omega
    have hw : HexToAddress (Hex (BytesToAddress (wordAt input 4))) =
        (wordAt input 4).drop 12 := by
      rw [HexToAddress_Hex_BytesToAddress, BytesToAddress_word _ (wordAt_length input 4)]
    simp only [parseErc20RedeemTxInput, hlen', if_false, h1, if_true,
      GetData_word input 4 (by decide), hw]
  · intro hlen h2
    have hlen' : ¬ input.length < 4 := by omega
    have hw : HexToAddress (Hex (BytesToAddress (wordAt input 36))) =
        (wordAt input 36).drop 12 := by
      rw [HexToAddress_Hex_BytesToAddress, BytesToAddress_word _ (wordAt_length input 36)]
    simp only [parseErc20RedeemTxInput, hlen', if_false, h2, hne, if_true,
      GetData_word input 36 (by decide), hw]
  · intro hlen h1 h2
    have hlen' : ¬ input.length < 4 := by omega
    simp only [parseErc20RedeemTxInput, hlen', if_false, h1, h2]

/-- Instance of C19: the call-data of scenario S3 read as a redeem names the
bridge address as the user. -/
theorem parseErc20RedeemTxInput_spec_witness :
    (4 ≤ erc20DepositTx.Data.length ∧ erc20DepositTx.Data.take 4 = transferFuncHash) ∧
    parseErc20RedeemTxInput erc20DepositTx.Data "0xDEAD000000000000000000000000000000000001"
        zeroEvent =
      some ({ zeroEvent with User := (wordAt erc20DepositTx.Data 4).drop 12 }, none) ∧
    (wordAt erc20DepositTx.Data 4).drop 12 = addrDeposit :=
  ⟨⟨by decide, by decide⟩,
    (parseErc20RedeemTxInput_spec erc20DepositTx.Data
      "0xDEAD000000000000000000000000000000000001" "" zeroEvent).2.1 (by decide) (by decide),
    by decide⟩

/-- C20 as stated fails: with `size = 2^62`, inside the bounds
`start + size < 2^64` and `size < 2^63`, `RightPadBytes` asks `make` for
`2^62` bytes, more than the allocation limit, and `GetData` panics. -/
theorem GetData_alloc_counterexample :
    0 + 2 ^ 62 < u64 ∧ 2 ^ 62 < 2 ^ 63 ∧ GetData [] 0 (2 ^ 62) = none := by
  refine ⟨by decide, by decide, by decide⟩

/-- C20 (amended): for every byte slice and every `start` and `size` with
`start + size < 2^64` and `size` within the allocation limit of `make`,
`GetData` does not panic and returns exactly `size` bytes: the bytes
`data[min(start, len) : min(start + size, len)]` followed by zero bytes up to
length `size`; in particular `size` zero bytes when `start ≥ len(data)`. -/
theorem GetData_spec (data : List Byte) (start size : Nat)
    (hsum : start + size < u64) (hsize : size ≤ maxAlloc) :
    ∃ out, GetData data start size = some out ∧
      out.length = size ∧
      out = (data.take (min (start + size) data.length)).drop (min start data.length) ++
        List.replicate
          (size - (min (start + size) data.length - min start data.length)) 0 ∧
      (data.length ≤ start → out = List.replicate size 0) := by
  refine ⟨_, GetData_eq data start size hsum hsize, ?_, ?_, ?_⟩
  · simp only [List.length_append, List.length_replicate, List.length_take, List.length_drop]
    omega
  · have hslice : (data.drop start).take size =
        (data.take (min (start + size) data.length)).drop (min start data.length) := by
      by_cases h1 : start ≤ data.length
      · rw [Nat.min_eq_left h1]
        by_cases h2 : start + size ≤ data.length
        · rw [Nat.min_eq_left h2, List.drop_take]
          congr 1
          omega
        · rw [Nat.min_eq_right (by omega), List.take_length]
          exact List.take_of_length_le (by simp only [List.length_drop]; omega)
      · rw [Nat.min_eq_right (by omega), Nat.min_eq_right (by omega), List.take_length,
          List.drop_length, List.drop_eq_nil_of_le (by omega)]
        exact List.take_nil
    have hlen : ((data.drop start).take size).length =
        min (start + size) data.length - min start data.length := by
      simp only [List.length_take, List.length_drop]
      omega
    rw [hlen, hslice]
  · intro hle
    rw [List.drop_eq_nil_of_le hle]
    simp

/-- Instance of C20 (amended): four bytes read at offset 2 of a three-byte
slice. -/
theorem GetData_spec_witness :
    (2 + 4 < u64 ∧ 4 ≤ maxAlloc) ∧
    ∃ out, GetData [1, 2, 3] 2 4 = some out ∧
      out.length = 4 ∧
      out = (([1, 2, 3] : List Byte).take (min (2 + 4) ([1, 2, 3] : List Byte).length)).drop
          (min 2 ([1, 2, 3] : List Byte).length) ++
        List.replicate
          (4 - (min (2 + 4) ([1, 2, 3] : List Byte).length -
            min 2 ([1, 2, 3] : List Byte).length)) 0 ∧
      (([1, 2, 3] : List Byte).length ≤ 2 → out = List.replicate 4 0) :=
  ⟨⟨by decide, by decide⟩, GetData_spec [1, 2, 3] 2 4 (by decide) (by decide)⟩

/-! ## Properties of the timers and of the wrapped range start -/

/-- The job ids given out by the launch loop are `i + 1, i + 2, ...`. -/
theorem scanRangeJobs_jobs (start end_ step jobs : Nat)
    (hstep : 1 ≤ step) (hle : jobs * step ≤ end_ - start) (hse : start < end_)
    (he : end_ < u64) :
    (scanRangeJobs start end_ step jobs jobs 0).map (fun r => r.job) = List.range' 1 jobs := by
  rw [scanRangeJobs_eq_map start end_ step jobs hstep hle hse he jobs 0 (Nat.zero_add _),
    List.map_map]
  apply List.ext_getElem
  · simp
  · intro n h1 h2
    simp [List.getElem_range']
    omega

/-- C21 as stated fails: with `jobCount = 2^64 - 1` the `uint64` sum
`jobCount + 1` wraps to 0, so no timer is made, while `doScanRangeJob` on the
window `[0, 1)` launches a worker with job id 1 and the tail loop uses job id
0; `scanBlock` then indexes an empty slice. With `jobCount = 2^62` the slice of
`jobCount + 1` timers exceeds the allocation limit and `run` panics in
`make`. -/
theorem timers_wrap_counterexample :
    1 ≤ u64 - 1 ∧ add64 (u64 - 1) 1 = 0 ∧
    doScanRangeJob (u64 - 1) 0 1 = some [{ job := 1, from_ := 0, to_ := 1 }] ∧
    ¬ 1 < add64 (u64 - 1) 1 ∧ ¬ 0 < add64 (u64 - 1) 1 ∧
    scanBlock (scannerOf addrUser false) [] (viewWith (add64 (u64 - 1) 1)) cachedBlocks
      1 0 false = none ∧
    run 0 1 (u64 - 1) 0 = some { timers := 0, rangeJobs := [], scanLoopFrom := none } ∧
    1 ≤ 2 ^ 62 ∧ runRange 1 (windowEnd 2 0) = some (1, 2) ∧ run 1 2 (2 ^ 62) 0 = none := by
  refine ⟨by decide, by decide, by decide, by decide, by decide, by decide, by decide,
    by decide, by decide, by decide⟩

/-- C21 (amended): for every scanner with `jobCount ≥ 1` whose
`jobCount + 1` timers (8 bytes each) are within the allocation limit of
`make`, and every valid range `start < end`, `run` makes `jobCount + 1` timers,
and the job ids under which `scanBlock` is called, 0 for the tail loop and
`1, ..., jobs` (with `jobs ≤ jobCount`) for the range workers launched by
`doScanRangeJob`, are all below that number, so the lookup
`processBlockTimers[job]` is in bounds; the ids of the range workers are
pairwise distinct and none is 0, so no two workers use the same timer slot. -/
theorem timers_in_bounds (jobCount start end_ : Nat)
    (hj : 1 ≤ jobCount) (hjmax : 8 * (jobCount + 1) ≤ maxAlloc) (hse : start < end_)
    (he : end_ < u64) :
    0 < jobCount + 1 ∧
    ∃ rs, doScanRangeJob jobCount start end_ = some rs ∧
      rs.map (fun r => r.job) = List.range' 1 rs.length ∧
      rs.length ≤ jobCount ∧
      (∀ r ∈ rs, 1 ≤ r.job ∧ r.job < jobCount + 1) ∧
      (rs.map (fun r => r.job)).Nodup ∧
      (∀ (startHeightArgument : Int) (endHeight latest : Nat),
        runRange startHeightArgument (windowEnd endHeight latest) = some (start, end_) →
        run startHeightArgument endHeight jobCount latest =
          some { timers := jobCount + 1, rangeJobs := rs,
                 scanLoopFrom :=
                   if endHeight = 0 then some (windowEnd endHeight latest) else none }) ∧
      (∀ endHeight latest : Nat,
        run 0 endHeight jobCount latest =
          some { timers := jobCount + 1, rangeJobs := [],
                 scanLoopFrom :=
                   if endHeight = 0 then some (windowEnd endHeight latest) else none }) := by
  have hmax : maxAlloc < u64 := by decide
  have hadd : add64 jobCount 1 = jobCount + 1 := add64_of_lt (by omega)
  have halloc : ¬ 8 * (jobCount + 1) > maxAlloc := by omega
  obtain ⟨hs1, hs2⟩ := doScanRangeJob_step jobCount start end_ hse
  have hjobs := scanRangeJobs_jobs start end_ _ _ hs1 hs2 hse he
  have hlen := congrArg List.length hjobs
  simp only [List.length_map, List.length_range'] at hlen
  have hbound : (if (end_ - start) / jobCount = 0 then 1 else jobCount) ≤ jobCount := by
    split <;> omega
  have hdo := doScanRangeJob_eq jobCount start end_ hj hse he
  refine ⟨by omega, _, hdo, ?_, ?_, ?_, ?_, ?_, ?_⟩
  · rw [hjobs, hlen]
  · omega
  · intro r hr
    have hmem : r.job ∈ List.range' 1 (if (end_ - start) / jobCount = 0 then 1 else jobCount) := by
      rw [← hjobs]
      exact List.mem_map_of_mem _ hr
    rw [List.mem_range'_1] at hmem
    omega
  · rw [hjobs]
    exact List.nodup_range' 1 _
  · intro startHeightArgument endHeight latest hrange
    simp only [run, hadd, halloc, if_false, hrange, hdo]
  · intro endHeight latest
    have h0 : runRange 0 (windowEnd endHeight latest) = none := by simp [runRange]
    simp only [run, hadd, halloc, if_false, h0]

/-- Instance of C21 (amended): `run` with `startHeightArgument = 10`,
`endHeight = 20` and three jobs makes four timers and launches workers 1, 2
and 3. -/
theorem timers_in_bounds_witness :
    (1 ≤ 3 ∧ 8 * (3 + 1) ≤ maxAlloc ∧ 10 < 20 ∧ 20 < u64 ∧
      runRange 10 (windowEnd 20 0) = some (10, 20)) ∧
    ∃ rs, doScanRangeJob 3 10 20 = some rs ∧
      rs.map (fun r => r.job) = List.range' 1 rs.length ∧
      (∀ r ∈ rs, 1 ≤ r.job ∧ r.job < 3 + 1) ∧
      run 10 20 3 0 =
        some { timers := 3 + 1, rangeJobs := rs,
               scanLoopFrom := if 20 = 0 then some (windowEnd 20 0) else none } :=
  ⟨⟨by decide, by decide, by decide, by decide, by decide⟩,
    let ⟨rs, h1, h2, _, h4, _, h6, _⟩ :=
      (timers_in_bounds 3 10 20 (by decide) (by decide) (by decide) (by decide)).2
    ⟨rs, h1, h2, h4, h6 10 20 0 (by decide)⟩⟩

/-- C22: for every negative `startHeightArgument` (any `int64`, the minimum
included) and every `windowEnd` smaller than `|startHeightArgument|`, the
`uint64` subtraction in `run` wraps to the start value
`windowEnd + 2^64 - |startHeightArgument|`, which is a `uint64` not below
`windowEnd`; so the guard `start >= end` of `doScanRangeJob` holds, the call
ends in a fatal exit whatever `jobCount` is (the exit `wrong scan range`, or
the earlier one when `jobCount` is 0), `run` ends there (when it has not
already panicked making the timers), and no `scanRange` worker is launched on
the wrapped range. -/
theorem runRange_wrapped (startHeightArgument : Int) (wend : Nat)
    (hmin : -(2 : Int) ^ 63 ≤ startHeightArgument) (hneg : startHeightArgument < 0)
    (hw : wend < u64) (habs : wend < startHeightArgument.natAbs) :
    ∃ start, runRange startHeightArgument wend = some (start, wend) ∧
      start = wend + u64 - startHeightArgument.natAbs ∧
      start ≥ wend ∧ start < u64 ∧
      (∀ jobCount, doScanRangeJob jobCount start wend = none) ∧
      (∀ endHeight latest jobCount, windowEnd endHeight latest = wend →
        run startHeightArgument endHeight jobCount latest = none) := by
  have hu : u64 = 18446744073709551616 := by decide
  have hmin' : -9223372036854775808 ≤ startHeightArgument := by simpa using hmin
  have hw' : wend < 18446744073709551616 := by omega
  have hne : startHeightArgument ≠ 0 := by omega
  have hnp : ¬ startHeightArgument > 0 := by omega
  have hconv : toUint64 (wrapInt64 (-startHeightArgument)) = startHeightArgument.natAbs := by
    unfold toUint64 wrapInt64
    omega
  have hsub : sub64 wend startHeightArgument.natAbs =
      wend + u64 - startHeightArgument.natAbs := by
    unfold sub64
    have h1 : startHeightArgument.natAbs % u64 = startHeightArgument.natAbs :=
      Nat.mod_eq_of_lt (by omega)
    rw [h1]
    exact Nat.mod_eq_of_lt (by omega)
  have hrange : runRange startHeightArgument wend =
      some (wend + u64 - startHeightArgument.natAbs, wend) := by
    simp only [runRange, hne, ne_eq, not_false_eq_true, if_true, hnp, if_false, hneg, hconv,
      hsub]
  have hge : wend + u64 - startHeightArgument.natAbs ≥ wend := by omega
  have hfatal : ∀ jobCount,
      doScanRangeJob jobCount (wend + u64 - startHeightArgument.natAbs) wend = none := by
    intro jobCount
    unfold doScanRangeJob
    by_cases h0 : jobCount = 0
    · simp only [h0, if_true]
    · simp only [h0, if_false, hge, if_true]
  refine ⟨_, hrange, rfl, hge, by omega, hfatal, ?_⟩
  intro endHeight latest jobCount hwend
  by_cases halloc : 8 * add64 jobCount 1 > maxAlloc
  · simp only [run, halloc, if_true]
  · simp only [run, halloc, if_false, hwend, hrange, hfatal]

/-- Instance of C22: the default `startHeightArgument = -200` on a chain whose
window ends at height 100. -/
theorem runRange_wrapped_witness :
    (-(2 : Int) ^ 63 ≤ -200 ∧ (-200 : Int) < 0 ∧ 100 < u64 ∧ 100 < (-200 : Int).natAbs) ∧
    ∃ start, runRange (-200) 100 = some (start, 100) ∧
      start = 100 + u64 - (-200 : Int).natAbs ∧
      start ≥ 100 ∧ start < u64 ∧
      (∀ jobCount, doScanRangeJob jobCount start 100 = none) ∧
      (∀ endHeight latest jobCount, windowEnd endHeight latest = 100 →
        run (-200) endHeight jobCount latest = none) :=
  ⟨⟨by decide, by decide, by decide, by decide⟩,
    runRange_wrapped (-200) 100 (by decide) (by decide) (by decide) (by decide)⟩

end Gethscan
